import Mathlib

set_option maxRecDepth 20000

/-!
Verification development for the MCP Markdown Formatter's hand-rolled
Markdown conversion core (`src/utils/exporter.ts`, `src/utils/core-exports.ts`
and the tool-call request handler).

The JavaScript string-and-regex code is shallowly embedded over `List Char`:
each regex replacement pass is a left-to-right scan (`gReplaceF`) driven by a
matcher that mirrors the concrete regex, including JavaScript semantics for
multiline anchors, greedy/lazy quantifiers with their (limited) backtracking
opportunities, and replacement assembly over the original string.
-/

/-- JavaScript whitespace as matched by the regex class backslash-s
(space, tab, newline, carriage return, vertical tab, form feed). -/
def jsWs (c : Char) : Bool :=
  c == ' ' || c == '\t' || c == '\n' || c == '\r' || c == '\x0b' || c == '\x0c'

/-- JavaScript `String.prototype.trim` over a character list. -/
def trimL (l : List Char) : List Char :=
  ((l.dropWhile jsWs).reverse.dropWhile jsWs).reverse

/-- JavaScript `s.split(sep)` for a single-character separator
(keeps empty segments, always returns at least one segment). -/
def splitOnChar (sep : Char) : List Char → List (List Char)
  | [] => [[]]
  | c :: cs =>
    match splitOnChar sep cs with
    | [] => [[]]
    | h :: t => if c == sep then [] :: h :: t else (c :: h) :: t

/-- `content.split('\n')`. -/
def splitNl (l : List Char) : List (List Char) := splitOnChar '\n' l

/-- `lines.join('\n')`. -/
def joinNl (ls : List (List Char)) : List Char := List.intercalate ['\n'] ls

/-- `pat` is a prefix of `l` (literal regex/startsWith test). -/
def isPrefixL (pat : String) (l : List Char) : Bool := pat.data.isPrefixOf l

/-- Index of the first occurrence of `pat` as a substring of `l`. -/
def findSub (pat : List Char) : List Char → Option Nat
  | [] => if pat.isEmpty then some 0 else none
  | c :: cs =>
    if pat.isPrefixOf (c :: cs) then some 0
    else
      match findSub pat cs with
      | some n => some (n + 1)
      | none => none

/-- Index of the last occurrence of `pat` as a substring of `l`
(used for greedy closers such as the final `**` on a line). -/
def lastSub (pat : List Char) (l : List Char) : Option Nat :=
  match findSub pat.reverse l.reverse with
  | some k => some (l.length - pat.length - k)
  | none => none

/-- `s.includes(pat)` (substring containment). -/
def containsSub (pat : String) (l : List Char) : Bool :=
  (findSub pat.data l).isSome

/-- Index of the last newline inside `r`, if any. -/
def lastNlIdx (r : List Char) : Option Nat :=
  match r.reverse.findIdx? (· == '\n') with
  | some k => some (r.length - 1 - k)
  | none => none

/-- JavaScript tail pattern `CLS*$` in multiline mode, where the class `CLS`
contains `\n`: greedily consume a run of `CLS` characters and then require
`$` (end of input or position just before a `'\n'`), backtracking from the
longest run.  Returns the number of characters the `CLS*` part consumes.
Since the maximal run's boundary character is never `'\n'` (that would extend
the run), the backtracking either accepts the full run at end of input or
stops right before the last `'\n'` inside the run. -/
def runThenEol (cls : Char → Bool) (l : List Char) : Option Nat :=
  let r := l.takeWhile cls
  if (l.drop r.length).isEmpty then some r.length
  else lastNlIdx r

/-- Fuelled left-to-right global regex replacement
(JavaScript `String.prototype.replace` with the `g` flag): matches are found
in the original string scanning left to right, each match is replaced by the
matcher-provided replacement, and scanning resumes after the matched text.
The matcher receives a flag telling whether the current position is at the
start of the string or right after a `'\n'` (for `^` in multiline mode) and
returns the matched length together with the replacement.  All embedded
patterns match at least one character, so fuel `l.length + 1` is sufficient. -/
def gReplaceF (pat : Bool → List Char → Option (Nat × List Char)) :
    Nat → Bool → List Char → List Char
  | 0, _, l => l
  | _ + 1, _, [] => []
  | fuel + 1, atLS, c :: cs =>
    match pat atLS (c :: cs) with
    | some (n, r) =>
      if n == 0 then c :: gReplaceF pat fuel (c == '\n') cs
      else r ++ gReplaceF pat fuel ((((c :: cs).take n).getLast?) == some '\n')
        ((c :: cs).drop n)
    | none => c :: gReplaceF pat fuel (c == '\n') cs

/-- One whole-string global replacement pass. -/
def gReplace (pat : Bool → List Char → Option (Nat × List Char))
    (l : List Char) : List Char :=
  gReplaceF pat (l.length + 1) true l

/-- Regex `\w` (ASCII word character). -/
def wordCh (c : Char) : Bool := c.isAlphanum || c == '_'

/-- The class `[*_]` used by the emphasis-stripping passes. -/
def emDelim (c : Char) : Bool := c == '*' || c == '_'

/-- The class `[\s-:]` of the table-separator-row pass (whitespace, `-`, `:`). -/
def sepCh (c : Char) : Bool := jsWs c || c == '-' || c == ':'

/-- Inner cleanup of a matched fenced block: `` m.replace(/```\w*\n?/g, '') ``,
first replacement — a fence with optional language word and optional newline. -/
def tryFenceWord (_ : Bool) (l : List Char) : Option (Nat × List Char) :=
  if isPrefixL "```" l then
    let w := (l.drop 3).takeWhile wordCh
    let extra := if (l.drop (3 + w.length)).head? == some '\n' then 1 else 0
    some (3 + w.length + extra, [])
  else none

/-- Inner cleanup of a matched fenced block: `` m.replace(/```/g, '') ``. -/
def tryTicks (_ : Bool) (l : List Char) : Option (Nat × List Char) :=
  if isPrefixL "```" l then some (3, []) else none

/-- The replacement callback of `stripMarkdown` pass 1:
`` m => m.replace(/```\w*\n?/g, '').replace(/```/g, '').trim() ``. -/
def fenceInner (m : List Char) : List Char :=
  trimL (gReplace tryTicks (gReplace tryFenceWord m))

/-- `stripMarkdown` pass 1: `` /```[\s\S]*?```/g `` (lazy, any character). -/
def tryFence (_ : Bool) (l : List Char) : Option (Nat × List Char) :=
  if isPrefixL "```" l then
    match findSub "```".data (l.drop 3) with
    | some j => some (3 + j + 3, fenceInner (l.take (3 + j + 3)))
    | none => none
  else none

/-- `stripMarkdown` pass 2: `/^\|?[\s-:]+\|[\s-:|]*$/gm` replaced by `''`. -/
def tryTableSep (atLS : Bool) (l : List Char) : Option (Nat × List Char) :=
  if !atLS then none
  else
    let p := if l.head? == some '|' then 1 else 0
    let l1 := l.drop p
    let run := l1.takeWhile sepCh
    if run.isEmpty then none
    else
      let l2 := l1.drop run.length
      if l2.head? == some '|' then
        match runThenEol (fun c => sepCh c || c == '|') (l2.drop 1) with
        | some k => some (p + run.length + 1 + k, [])
        | none => none
      else none

/-- `stripMarkdown` pass 3a: `/^[\s\t]*([*_-])\1{2,}\s*$/gm` replaced by `''`. -/
def tryHrStrip (atLS : Bool) (l : List Char) : Option (Nat × List Char) :=
  if !atLS then none
  else
    let ws := l.takeWhile jsWs
    let l1 := l.drop ws.length
    match l1.head? with
    | some c =>
      if c == '*' || c == '_' || c == '-' then
        let run := l1.takeWhile (· == c)
        if run.length ≥ 3 then
          match runThenEol jsWs (l1.drop run.length) with
          | some k => some (ws.length + run.length + k, [])
          | none => none
        else none
      else none
    | none => none

/-- `stripMarkdown` pass 3b: `/^[\s\t]*[=-]{3,}\s*$/gm` replaced by `''`. -/
def trySetextStrip (atLS : Bool) (l : List Char) : Option (Nat × List Char) :=
  if !atLS then none
  else
    let ws := l.takeWhile jsWs
    let l1 := l.drop ws.length
    let run := l1.takeWhile (fun c => c == '=' || c == '-')
    if run.length ≥ 3 then
      match runThenEol jsWs (l1.drop run.length) with
      | some k => some (ws.length + run.length + k, [])
      | none => none
    else none

/-- `stripMarkdown` pass 4a: `/^[\s\t]*>+\s?/gm` replaced by `''`. -/
def tryBqStrip (atLS : Bool) (l : List Char) : Option (Nat × List Char) :=
  if !atLS then none
  else
    let ws := l.takeWhile jsWs
    let l1 := l.drop ws.length
    let run := l1.takeWhile (· == '>')
    if run.isEmpty then none
    else
      let opt :=
        match (l1.drop run.length).head? with
        | some c => if jsWs c then 1 else 0
        | none => 0
      some (ws.length + run.length + opt, [])

/-- `stripMarkdown` pass 4b: `/^#{1,6}\s+/gm` replaced by `''`.  A run of more
than six `#` cannot match (the character after the first six is `#`, not
whitespace, and backtracking to fewer `#` hits `#` again). -/
def tryAtxStrip (atLS : Bool) (l : List Char) : Option (Nat × List Char) :=
  if !atLS then none
  else
    let run := l.takeWhile (· == '#')
    if run.length < 1 || run.length > 6 then none
    else
      let wsr := (l.drop run.length).takeWhile jsWs
      if wsr.isEmpty then none else some (run.length + wsr.length, [])

/-- Generic delimiter-wrapped pattern `D{k} C+ D{k}` where `D` is the
delimiter class and `C` the content class (the complement of the delimiter
class in every use), replaced by the content.  Covers the emphasis passes
`[*_]{3}([^*_]+)[*_]{3}` (and the 2/1 variants), `~~([^~]+)~~`,
`[~^]([^~^]+)[~^]` and backtick inline code.  Greedy content takes the
maximal run; shortening it would put a content character where the closing
delimiter class is required, so no other match is possible at this start. -/
def tryWrap (dcls ccls : Char → Bool) (k : Nat) (_ : Bool) (l : List Char) :
    Option (Nat × List Char) :=
  let d1 := l.take k
  if d1.length == k && d1.all dcls then
    let rest := l.drop k
    let content := rest.takeWhile ccls
    if content.isEmpty then none
    else
      let d2 := (rest.drop content.length).take k
      if d2.length == k && d2.all dcls then some (k + content.length + k, content)
      else none
  else none

/-- `stripMarkdown` pass 6a: `/\$\$(.*?)\$\$/gs` replaced by `'$1'`
(`s` flag: the lazy content may contain newlines). -/
def tryMathBlockStrip (_ : Bool) (l : List Char) : Option (Nat × List Char) :=
  if isPrefixL "$$" l then
    match findSub "$$".data (l.drop 2) with
    | some j => some (2 + j + 2, (l.drop 2).take j)
    | none => none
  else none

/-- First `'$'` reachable without crossing a newline (for the lazy `\$(.*?)\$`
whose dot does not match `'\n'`). -/
def findDollarNoNl : List Char → Option Nat
  | [] => none
  | c :: cs =>
    if c == '$' then some 0
    else if c == '\n' then none
    else
      match findDollarNoNl cs with
      | some n => some (n + 1)
      | none => none

/-- `stripMarkdown` pass 6b: `/\$(.*?)\$/g` replaced by `'$1'`. -/
def tryMathInlineStrip (_ : Bool) (l : List Char) : Option (Nat × List Char) :=
  match l with
  | '$' :: rest =>
    match findDollarNoNl rest with
    | some j => some (1 + j + 1, rest.take j)
    | none => none
  | _ => none

/-- `stripMarkdown` pass 6c: `/!\[([^\]]*)\]\([^)]+\)/g` replaced by `'$1'`. -/
def tryImageStrip (_ : Bool) (l : List Char) : Option (Nat × List Char) :=
  if isPrefixL "![" l then
    let alt := (l.drop 2).takeWhile (· != ']')
    let l1 := l.drop (2 + alt.length)
    if isPrefixL "](" l1 then
      let inner := (l1.drop 2).takeWhile (· != ')')
      if inner.isEmpty then none
      else if (l1.drop (2 + inner.length)).head? == some ')' then
        some (2 + alt.length + 2 + inner.length + 1, alt)
      else none
    else none
  else none

/-- `stripMarkdown` pass 6d: `/\[([^\]]+)\]\([^)]+\)/g` replaced by `'$1'`. -/
def tryLinkStrip (_ : Bool) (l : List Char) : Option (Nat × List Char) :=
  match l with
  | '[' :: rest =>
    let alt := rest.takeWhile (· != ']')
    if alt.isEmpty then none
    else
      let l1 := rest.drop alt.length
      if isPrefixL "](" l1 then
        let inner := (l1.drop 2).takeWhile (· != ')')
        if inner.isEmpty then none
        else if (l1.drop (2 + inner.length)).head? == some ')' then
          some (1 + alt.length + 2 + inner.length + 1, alt)
        else none
      else none
  | _ => none

/-- `stripMarkdown` pass 6e: `/\[([^\]]+)\]\[[^\]]*\]/g` replaced by `'$1'`. -/
def tryRefLinkStrip (_ : Bool) (l : List Char) : Option (Nat × List Char) :=
  match l with
  | '[' :: rest =>
    let alt := rest.takeWhile (· != ']')
    if alt.isEmpty then none
    else
      let l1 := rest.drop alt.length
      if isPrefixL "][" l1 then
        let ref := (l1.drop 2).takeWhile (· != ']')
        if (l1.drop (2 + ref.length)).head? == some ']' then
          some (1 + alt.length + 2 + ref.length + 1, alt)
        else none
      else none
  | _ => none

/-- `stripMarkdown` pass 6f: `/\[[ xX]\]\s+/g` replaced by `''`. -/
def tryCheckboxStrip (_ : Bool) (l : List Char) : Option (Nat × List Char) :=
  match l with
  | '[' :: c :: ']' :: rest =>
    if c == ' ' || c == 'x' || c == 'X' then
      let wsr := rest.takeWhile jsWs
      if wsr.isEmpty then none else some (3 + wsr.length, [])
    else none
  | _ => none

/-- `stripMarkdown` pass 6g: `/\[\^[^\]]+\]/g` replaced by `''`. -/
def tryFootnoteStrip (_ : Bool) (l : List Char) : Option (Nat × List Char) :=
  if isPrefixL "[^" l then
    let b := (l.drop 2).takeWhile (· != ']')
    if b.isEmpty then none
    else if (l.drop (2 + b.length)).head? == some ']' then
      some (2 + b.length + 1, [])
    else none
  else none

/-- `stripMarkdown` pass 6h: `/\{#[^}]+\}/g` replaced by `''`. -/
def tryAnchorStrip (_ : Bool) (l : List Char) : Option (Nat × List Char) :=
  if isPrefixL "\x7b#" l then
    let b := (l.drop 2).takeWhile (· != '\x7d')
    if b.isEmpty then none
    else if (l.drop (2 + b.length)).head? == some '\x7d' then
      some (2 + b.length + 1, [])
    else none
  else none

/-- `stripMarkdown` pass 7b: `/<[^>]*>/g` replaced by `''`. -/
def tryHtmlStrip (_ : Bool) (l : List Char) : Option (Nat × List Char) :=
  match l with
  | '<' :: rest =>
    let b := rest.takeWhile (· != '>')
    if (rest.drop b.length).head? == some '>' then some (1 + b.length + 1, [])
    else none
  | _ => none

/-- The character class of `stripMarkdown` pass 8b,
`` [\\`*_{}[\]()#+\-.!|~^] ``. -/
def escCh (c : Char) : Bool :=
  c == '\\' || c == '\x60' || c == '*' || c == '_' || c == '\x7b' || c == '\x7d' ||
  c == '[' || c == ']' || c == '(' || c == ')' || c == '#' || c == '+' ||
  c == '-' || c == '.' || c == '!' || c == '|' || c == '~' || c == '^'

/-- `stripMarkdown` pass 8b: `` /\\([\\`*_{}[\]()#+\-.!|~^])/g `` replaced by
`'$1'` (removes one escaping backslash). -/
def tryUnescape (_ : Bool) (l : List Char) : Option (Nat × List Char) :=
  match l with
  | '\\' :: c :: _ => if escCh c then some (2, [c]) else none
  | _ => none

/-- `stripMarkdown` pass 8a: `clean.replace(/\|/g, ' ')`. -/
def pipesToSpaces (l : List Char) : List Char :=
  l.map (fun c => if c == '|' then ' ' else c)

/-- `stripMarkdown` pass 9 collapse: `/\n{3,}/g` replaced by `'\n\n'`. -/
def tryNl3 (_ : Bool) (l : List Char) : Option (Nat × List Char) :=
  let run := l.takeWhile (· == '\n')
  if run.length ≥ 3 then some (run.length, ['\n', '\n']) else none

/-- `stripMarkdown` pass 9: split into lines, trim each line, rejoin,
collapse runs of 3+ newlines to 2, trim the whole string. -/
def normalizeStrip (l : List Char) : List Char :=
  trimL (gReplace tryNl3 (joinNl ((splitNl l).map trimL)))

/-- One iteration of `stripMarkdown` pass 5 (the emphasis loop body):
`[*_]{3}…`, `[*_]{2}…`, `[*_]{1}…`, then `~~…~~`, each replaced by `'$1'`. -/
def emPassOnce (l : List Char) : List Char :=
  gReplace (tryWrap (· == '~') (· != '~') 2)
    (gReplace (tryWrap emDelim (fun c => !emDelim c) 1)
      (gReplace (tryWrap emDelim (fun c => !emDelim c) 2)
        (gReplace (tryWrap emDelim (fun c => !emDelim c) 3) l)))

/-- `stripMarkdown` from `src/utils/exporter.ts` (identically exported by
`src/utils/core-exports.ts`): the multi-pass Markdown-removing normalizer,
over `List Char`.  Pass order follows the source exactly. -/
def stripMarkdownL (text : List Char) : List Char :=
  if text.isEmpty then []
  else
    let c1 := gReplace tryFence text
    let c2 := gReplace tryTableSep c1
    let c3 := gReplace tryHrStrip c2
    let c4 := gReplace trySetextStrip c3
    let c5 := gReplace tryBqStrip c4
    let c6 := gReplace tryAtxStrip c5
    let c7 := emPassOnce (emPassOnce (emPassOnce c6))
    let c8 := gReplace tryMathBlockStrip c7
    let c9 := gReplace tryMathInlineStrip c8
    let c10 := gReplace tryImageStrip c9
    let c11 := gReplace tryLinkStrip c10
    let c12 := gReplace tryRefLinkStrip c11
    let c13 := gReplace tryCheckboxStrip c12
    let c14 := gReplace tryFootnoteStrip c13
    let c15 := gReplace tryAnchorStrip c14
    let c16 := gReplace (tryWrap (fun c => c == '~' || c == '^')
      (fun c => !(c == '~' || c == '^')) 1) c15
    let c17 := gReplace (tryWrap (· == '\x60') (· != '\x60') 1) c16
    let c18 := gReplace tryHtmlStrip c17
    let c19 := pipesToSpaces c18
    let c20 := gReplace tryUnescape c19
    normalizeStrip c20

/-- `stripMarkdown` on Lean strings. -/
def stripMarkdown (s : String) : String := String.mk (stripMarkdownL s.data)

/-- `cleanMarkdownText` simply delegates to `stripMarkdown`. -/
def cleanMarkdownText (s : String) : String := stripMarkdown s


/-- JavaScript `part.slice(a, -b)` (take all but the last `b`, then drop `a`). -/
def sliceLC (a b : Nat) (l : List Char) : List Char :=
  (l.take (l.length - b)).drop a

/-- `pat` is a suffix of `l` (JavaScript `endsWith`). -/
def isSuffixL (pat : String) (l : List Char) : Bool := pat.data.isSuffixOf l

/-- LaTeX heading pass `/^MARK (.*)$/gm` replaced by `CMD{$1}` where the
marker is `# `, `## ` or `### ` and the command correspondingly
`\section` / `\subsection` / `\subsubsection`. -/
def tryTexH (mark cmd : String) (atLS : Bool) (l : List Char) :
    Option (Nat × List Char) :=
  if !atLS then none
  else if isPrefixL mark l then
    let content := (l.drop mark.length).takeWhile (· != '\n')
    some (mark.length + content.length, cmd.data ++ content ++ ['\x7d'])
  else none

/-- LaTeX bold pass `/\*\*(.*)\*\*/g` replaced by `\textbf{$1}`.  The greedy
dot (which does not cross `'\n'`) backtracks to the last `**` on the line. -/
def tryTexBold (_ : Bool) (l : List Char) : Option (Nat × List Char) :=
  if isPrefixL "**" l then
    let region := (l.drop 2).takeWhile (· != '\n')
    match lastSub "**".data region with
    | some p => some (2 + p + 2, "\\textbf\x7b".data ++ region.take p ++ ['\x7d'])
    | none => none
  else none

/-- LaTeX italic pass `/\*(.*)\*/g` replaced by `\textit{$1}`. -/
def tryTexItalic (_ : Bool) (l : List Char) : Option (Nat × List Char) :=
  match l with
  | '*' :: rest =>
    let region := rest.takeWhile (· != '\n')
    match lastSub "*".data region with
    | some p => some (1 + p + 1, "\\textit\x7b".data ++ region.take p ++ ['\x7d'])
    | none => none
  | _ => none

/-- LaTeX display-math pass `/\$\$(.*?)\$\$/gs` replaced by an `equation`
environment (the `s` flag lets the lazy content cross newlines). -/
def tryTexEq (_ : Bool) (l : List Char) : Option (Nat × List Char) :=
  if isPrefixL "$$" l then
    match findSub "$$".data (l.drop 2) with
    | some j =>
      some (2 + j + 2,
        "\\begin\x7bequation\x7d\n".data ++ (l.drop 2).take j ++
          "\n\\end\x7bequation\x7d".data)
    | none => none
  else none

/-- LaTeX inline-math pass `/\$(.*?)\$/g` replaced by `'$ $1 $'`. -/
def tryTexMath (_ : Bool) (l : List Char) : Option (Nat × List Char) :=
  match l with
  | '$' :: rest =>
    match findDollarNoNl rest with
    | some j => some (1 + j + 1, '$' :: ' ' :: rest.take j ++ [' ', '$'])
    | none => none
  | _ => none

/-- LaTeX list pass `/^-\s(.*)$/gm` replaced by a one-item `itemize`
environment (a single whitespace character after the dash). -/
def tryTexItem (atLS : Bool) (l : List Char) : Option (Nat × List Char) :=
  if !atLS then none
  else
    match l with
    | '-' :: c :: rest =>
      if jsWs c then
        let content := rest.takeWhile (· != '\n')
        some (2 + content.length,
          "\\begin\x7bitemize\x7d\n\\item ".data ++ content ++
            "\n\\end\x7bitemize\x7d".data)
      else none
    | _ => none

/-- The literal pattern of the adjacent-list merge pass,
`/\\end{itemize}\n\\begin{itemize}/g`. -/
def texMergePat : String := "\\end\x7bitemize\x7d\n\\begin\x7bitemize\x7d"

/-- LaTeX merge pass: adjacent `itemize` close/open pairs removed. -/
def tryTexMerge (_ : Bool) (l : List Char) : Option (Nat × List Char) :=
  if isPrefixL texMergePat l then some (texMergePat.length, []) else none

/-- The class `[_%$&~^\\{}]` of the LaTeX escaping pass. -/
def texEscCh (c : Char) : Bool :=
  c == '_' || c == '%' || c == '$' || c == '&' || c == '~' || c == '^' ||
  c == '\\' || c == '\x7b' || c == '\x7d'

/-- LaTeX escaping pass `/([_%$&~^\\{}])/g` with callback
`m => m === '\\' ? m : '\\' + m` (runs after all substitutions). -/
def tryTexEscape (_ : Bool) (l : List Char) : Option (Nat × List Char) :=
  match l with
  | c :: _ =>
    if texEscCh c then
      if c == '\\' then some (1, [c]) else some (1, ['\\', c])
    else none
  | [] => none

/-- LaTeX cleanup pass `/[*#`|]/g` replaced by `''`. -/
def texCleanup (l : List Char) : List Char :=
  l.filter (fun c => !(c == '*' || c == '#' || c == '\x60' || c == '|'))

/-- `parseMarkdownToLaTeX` from `src/utils/core-exports.ts`, which is also
the `processed` pipeline inside `exportAsLaTeX` in `src/utils/exporter.ts`:
substitution passes in source order, then escaping, then cleanup. -/
def parseMarkdownToLaTeXL (content : List Char) : List Char :=
  let s1 := gReplace (tryTexH "# " "\\section\x7b") content
  let s2 := gReplace (tryTexH "## " "\\subsection\x7b") s1
  let s3 := gReplace (tryTexH "### " "\\subsubsection\x7b") s2
  let s4 := gReplace tryTexBold s3
  let s5 := gReplace tryTexItalic s4
  let s6 := gReplace tryTexEq s5
  let s7 := gReplace tryTexMath s6
  let s8 := gReplace tryTexItem s7
  let s9 := gReplace tryTexMerge s8
  let s10 := gReplace tryTexEscape s9
  texCleanup s10

/-- `parseMarkdownToLaTeX` on Lean strings. -/
def parseMarkdownToLaTeX (s : String) : String := ⟨parseMarkdownToLaTeXL s.data⟩

/-- The fixed document header assembled by `exportAsLaTeX`
(with the caller-supplied filename in the title). -/
def latexHeader (filename : String) : String :=
  "\\documentclass\x7barticle\x7d\n\\usepackage[utf8]\x7binputenc\x7d\n\\usepackage\x7bamsmath\x7d\n\\usepackage\x7bhyperref\x7d\n\\title\x7b" ++
    filename ++ "\x7d\n\\begin\x7bdocument\x7d\n\\maketitle\n"

/-- The complete `.tex` text produced by `exportAsLaTeX` in
`src/utils/exporter.ts` (the file write through `saveAs` is external). -/
def exportAsLaTeX (content filename : String) : String :=
  latexHeader filename ++ parseMarkdownToLaTeX content ++ "\n\\end\x7bdocument\x7d"

/-- `content.match(/\|.*\|/g)`: since the dot does not match `'\n'`, every
match lies within one line; within a line the single leftmost-greedy match
runs from the first `'|'` to the last `'|'` (no match if the line has fewer
than two pipes), and the rest of the line then contains no further pipe. -/
def pipeRowMatches (content : List Char) : List (List Char) :=
  (splitNl content).filterMap (fun line =>
    match line.findIdx? (· == '|') with
    | some i =>
      let region := line.drop i
      match lastSub "|".data region with
      | some p => if p ≥ 1 then some (region.take (p + 1)) else none
      | none => none
    | none => none)

/-- Cells of one scanned row:
`line.split('|').map(c => c.trim()).filter(c => c !== "").map(c => stripMarkdown(c))`. -/
def csvCells (line : List Char) : List (List Char) :=
  (((splitOnChar '|' line).map trimL).filter (fun c => !c.isEmpty)).map stripMarkdownL

/-- CSV quoting: `'"' + c.replace(/"/g, '""') + '"'`. -/
def quoteCsv (c : List Char) : List Char :=
  '"' :: (c.flatMap (fun ch => if ch == '"' then ['"', '"'] else [ch])) ++ ['"']

/-- The contribution of one scanned pipe row to the CSV output: dropped when
the row contains `'---'`, dropped when no cells remain, otherwise the quoted
comma-joined cells plus a newline. -/
def csvRow (line : List Char) : Option (List Char) :=
  if containsSub "---" line then none
  else
    let cells := csvCells line
    if cells.isEmpty then none
    else some (List.intercalate [','] (cells.map quoteCsv) ++ ['\n'])

/-- `generateCSV` from `src/utils/core-exports.ts` (the same string as the
blob content of `exportAsCSV` in `src/utils/exporter.ts`). -/
def generateCSVL (content : List Char) : List Char :=
  ((pipeRowMatches content).filterMap csvRow).flatten

/-- `generateCSV` on Lean strings. -/
def generateCSV (content : String) : String := ⟨generateCSVL content.data⟩


/-- First occurrence of `pat` reachable without crossing a newline before it
(lazy dot without the `s` flag). -/
def findSubNoNl (pat : List Char) : List Char → Option Nat
  | [] => if pat.isEmpty then some 0 else none
  | c :: cs =>
    if pat.isPrefixOf (c :: cs) then some 0
    else if c == '\n' then none
    else
      match findSubNoNl pat cs with
      | some n => some (n + 1)
      | none => none

/-- `\$\$.*?\$\$` at the current position (inline-splitter alternative 1). -/
def mbAt (l : List Char) : Option Nat :=
  if isPrefixL "$$" l then
    (findSubNoNl "$$".data (l.drop 2)).map (fun j => 2 + j + 2)
  else none

/-- `\$.*?\$` at the current position (inline-splitter alternative 2). -/
def miAt (l : List Char) : Option Nat :=
  match l with
  | '$' :: rest => (findDollarNoNl rest).map (fun j => 1 + j + 1)
  | _ => none

/-- A literal-delimiter wrapped span `D C+ D` at the current position, where
`D` is a literal delimiter string and `C` the content class (`[^*]`, `[^_]`
or the backtick complement).  The greedy content run is maximal; a shorter
run would put a content character where the closing delimiter starts. -/
def wrapAt (dStr : String) (ccls : Char → Bool) (l : List Char) : Option Nat :=
  if isPrefixL dStr l then
    let k := dStr.length
    let content := (l.drop k).takeWhile ccls
    if content.isEmpty then none
    else if isPrefixL dStr (l.drop (k + content.length)) then
      some (k + content.length + k)
    else none
  else none

/-- Case-sensitive `<br\s*\/?>` at the current position (the split regex has
no `i` flag). -/
def brAtExact (l : List Char) : Option Nat :=
  match l with
  | '<' :: 'b' :: 'r' :: rest =>
    let wsr := rest.takeWhile jsWs
    match rest.drop wsr.length with
    | '/' :: '>' :: _ => some (3 + wsr.length + 2)
    | '>' :: _ => some (3 + wsr.length + 1)
    | _ => none
  | _ => none

/-- Case-insensitive `<br\s*\/?>` at the current position (the classifier
test `part.match(/<br\s*\/?>/i)` is case-insensitive and unanchored). -/
def brIAt (l : List Char) : Bool :=
  match l with
  | '<' :: b :: r :: rest =>
    (b == 'b' || b == 'B') && (r == 'r' || r == 'R') &&
      (let wsr := rest.takeWhile jsWs
       match rest.drop wsr.length with
       | '/' :: '>' :: _ => true
       | '>' :: _ => true
       | _ => false)
  | _ => false

/-- `part.match(/<br\s*\/?>/i)` — the pattern occurs anywhere in `part`. -/
def containsBrI : List Char → Bool
  | [] => false
  | c :: cs => brIAt (c :: cs) || containsBrI cs

/-- The inline-splitter alternation of `parseInlineFormatting` and
`parseInlineToRTF`:
``(\$\$.*?\$\$|\$.*?\$|\*\*\*[^*]+\*\*\*|\*\*[^*]+\*\*|\*[^*]+\*|___[^_]+___|__[^_]+__|_[^_]+_|`[^`]+`|<br\s*\/?>)``
tried in order at one position; returns the matched length. -/
def tryInlinePat (l : List Char) : Option Nat :=
  mbAt l <|> miAt l <|>
  wrapAt "***" (· != '*') l <|> wrapAt "**" (· != '*') l <|>
  wrapAt "*" (· != '*') l <|>
  wrapAt "___" (· != '_') l <|> wrapAt "__" (· != '_') l <|>
  wrapAt "_" (· != '_') l <|>
  wrapAt "\x60" (· != '\x60') l <|> brAtExact l

/-- Fuelled `text.split(regex)` with one capture group wrapping the whole
alternation: pieces of untouched text alternate with captured matches; the
leading and trailing pieces may be empty exactly as in JavaScript. -/
def inlineSplitF : Nat → List Char → List Char → List (List Char)
  | 0, acc, l => [acc.reverse ++ l]
  | _ + 1, acc, [] => [acc.reverse]
  | fuel + 1, acc, c :: cs =>
    match tryInlinePat (c :: cs) with
    | some n =>
      acc.reverse :: (c :: cs).take n :: inlineSplitF fuel [] ((c :: cs).drop n)
    | none => inlineSplitF fuel (c :: acc) cs

/-- `text.split(regex)` for the inline alternation. -/
def inlineSplit (l : List Char) : List (List Char) :=
  inlineSplitF (l.length + 1) [] l

/-- A `docx` `TextRun` as built by `parseInlineFormatting`, keyed by the
distinct property sets the source attaches (`$$…$$` and `$…$` build
property-identical math runs, `***`/`___` identical bold-italic runs, and
so on). -/
inductive Run
  | text (s : String)
  | math (s : String)
  | boldItalic (s : String)
  | bold (s : String)
  | italic (s : String)
  | code (s : String)
  | brk
  deriving Repr, DecidableEq

/-- The classifier if-chain applied to one (non-empty) split part, in source
order: `$$`, `$`, `***`, `___`, `**`, `__`, `*`, `_`, backtick, `<br>`. -/
def classifyRun (part : List Char) : Run :=
  if isPrefixL "$$" part && isSuffixL "$$" part then .math ⟨sliceLC 2 2 part⟩
  else if isPrefixL "$" part && isSuffixL "$" part then .math ⟨sliceLC 1 1 part⟩
  else if isPrefixL "***" part && isSuffixL "***" part then
    .boldItalic ⟨sliceLC 3 3 part⟩
  else if isPrefixL "___" part && isSuffixL "___" part then
    .boldItalic ⟨sliceLC 3 3 part⟩
  else if isPrefixL "**" part && isSuffixL "**" part then .bold ⟨sliceLC 2 2 part⟩
  else if isPrefixL "__" part && isSuffixL "__" part then .bold ⟨sliceLC 2 2 part⟩
  else if isPrefixL "*" part && isSuffixL "*" part then .italic ⟨sliceLC 1 1 part⟩
  else if isPrefixL "_" part && isSuffixL "_" part then .italic ⟨sliceLC 1 1 part⟩
  else if isPrefixL "\x60" part && isSuffixL "\x60" part then
    .code ⟨sliceLC 1 1 part⟩
  else if containsBrI part then .brk
  else .text ⟨part⟩

/-- `parseInlineFormatting` from `src/utils/exporter.ts` /
`src/utils/core-exports.ts`: split on the inline alternation, skip falsy
(empty) parts, classify each remaining part, and fall back to a single plain
run carrying the whole input when no run was produced. -/
def parseInlineFormattingL (text : List Char) : List Run :=
  let runs := ((inlineSplit text).filter (fun p => !p.isEmpty)).map classifyRun
  if runs.isEmpty then [.text ⟨text⟩] else runs

/-- `parseInlineFormatting` on Lean strings. -/
def parseInlineFormatting (s : String) : List Run := parseInlineFormattingL s.data


/-- Cells of one table line:
`line.split('|').map(c => c.trim()).filter(c => c)`. -/
def tableCells (line : List Char) : List (List Char) :=
  ((splitOnChar '|' line).map trimL).filter (fun c => !c.isEmpty)

/-- `parseMarkdownTable` from `src/utils/exporter.ts` /
`src/utils/core-exports.ts`: trim the block, split into lines, drop blank
lines; fewer than two lines yields no table; otherwise line 0 provides the
headers, line 1 is skipped unconditionally, and lines 2+ provide the rows
(empty cell lists dropped). -/
def parseMarkdownTableL (tableText : List Char) :
    List (List Char) × List (List (List Char)) :=
  let lines := (splitNl (trimL tableText)).filter (fun line => !(trimL line).isEmpty)
  if lines.length < 2 then ([], [])
  else
    (tableCells (lines.headD []),
      ((lines.drop 2).map tableCells).filter (fun c => !c.isEmpty))

/-- `parseMarkdownTable` on Lean strings. -/
def parseMarkdownTable (tableText : String) : List String × List (List String) :=
  let p := parseMarkdownTableL tableText.data
  (p.1.map (⟨·⟩), p.2.map (fun r => r.map (⟨·⟩)))

/-- The horizontal-rule test `/^(\*\*\*|---|__{3,})\s*$/.test(trimmed)` shared
by `parseMarkdownToDocx` and `parseMarkdownToRTF`: exactly `***`, exactly
`---`, or four or more underscores (`__{3,}` is one underscore followed by
three or more), each followed only by whitespace to the end. -/
def hrTest (t : List Char) : Bool :=
  (isPrefixL "***" t && (t.drop 3).all jsWs) ||
  (isPrefixL "---" t && (t.drop 3).all jsWs) ||
  (let run := t.takeWhile (· == '_')
   run.length ≥ 4 && (t.drop run.length).all jsWs)

/-- The setext-underline lookahead `/^={3,}\s*$/` (`c = '='`) and
`/^-{3,}\s*$/` (`c = '-'`) on the trimmed next line. -/
def setextRunTest (c : Char) (t : List Char) : Bool :=
  let run := t.takeWhile (· == c)
  run.length ≥ 3 && (t.drop run.length).all jsWs

/-- `/^(\s*)[-*+]\s+/.test(line)`. -/
def bulletTest (line : List Char) : Bool :=
  let l1 := line.dropWhile jsWs
  match l1 with
  | m :: rest =>
    (m == '-' || m == '*' || m == '+') &&
      (match rest.head? with
       | some c => jsWs c
       | none => false)
  | [] => false

/-- `line.replace(/^\s*[-*+]\s+/, '')`. -/
def bulletStrip (line : List Char) : List Char :=
  ((line.dropWhile jsWs).drop 1).dropWhile jsWs

/-- `/^(\s*)\d+\.\s+/.test(line)`. -/
def numTest (line : List Char) : Bool :=
  let l1 := line.dropWhile jsWs
  let ds := l1.takeWhile Char.isDigit
  !ds.isEmpty && ((l1.drop ds.length).head? == some '.') &&
    (match (l1.drop (ds.length + 1)).head? with
     | some c => jsWs c
     | none => false)

/-- `line.replace(/^\s*\d+\.\s+/, '')`. -/
def numStrip (line : List Char) : List Char :=
  let l1 := line.dropWhile jsWs
  let ds := l1.takeWhile Char.isDigit
  (l1.drop (ds.length + 1)).dropWhile jsWs

/-- The second capture group `(\d+\.\s+)` of the numbered-list match (digits,
dot, and the following whitespace run) used verbatim by the RTF renderer. -/
def numToken (line : List Char) : List Char :=
  let l1 := line.dropWhile jsWs
  let ds := l1.takeWhile Char.isDigit
  ds ++ '.' :: ((l1.drop (ds.length + 1)).takeWhile jsWs)

/-- `(line.takeWhile ws).length / 4` — `Math.floor(match[1].length / 4)`. -/
def indentOf (line : List Char) : Nat := (line.takeWhile jsWs).length / 4

/-- `(trimmed.match(/^>+/g) || ['>'])[0].length`. -/
def bqLevel (t : List Char) : Nat :=
  let run := t.takeWhile (· == '>')
  if run.isEmpty then 1 else run.length

/-- `trimmed.replace(/^>+\s*/, '')` (drops the whole `'>'` run and every
immediately following whitespace character). -/
def bqText (t : List Char) : List Char :=
  (t.dropWhile (· == '>')).dropWhile jsWs

/-- `line.endsWith('  ')` (two literal spaces). -/
def endsTwoSpaces (line : List Char) : Bool := isSuffixL "  " line

/-- One abstract element of the `docx` document tree built by
`parseMarkdownToDocx`: each constructor records the distinguishing
`Paragraph`/`Table` configuration of the corresponding `elements.push`
(tables keep the raw header/row cell strings handed to `createDocxTable`). -/
inductive DocxElement
  | hruleP
  | codeBlock (content : String)
  | heading (level : Nat) (runs : List Run)
  | docxTable (headers : List String) (rows : List (List String))
  | tableSpacer
  | blankP
  | blockquote (level : Nat) (text : String)
  | bulletItem (indent : Nat) (runs : List Run)
  | numberedItem (indent : Nat) (runs : List Run)
  | para (runs : List Run)
  deriving Repr, DecidableEq

/-- Fuelled main loop of `parseMarkdownToDocx` (state: remaining lines,
`inCodeBlock`, `codeBlockContent`).  Branch order follows the source:
horizontal rule, fence toggle, fence buffering, setext lookahead, table
grouping, blank, ATX headings, blockquote, bullet, numbered, paragraph.
When the input ends inside an open fence the loop simply ends: the buffered
lines are discarded (`while (i < lines.length)` has no trailing flush). -/
def parseMarkdownToDocxF :
    Nat → List (List Char) → Bool → List (List Char) → List DocxElement
  | 0, _, _, _ => []
  | _ + 1, [], _, _ => []
  | fuel + 1, line :: rest, inCode, buf =>
    let trimmed := trimL line
    if hrTest trimmed then
      .hruleP :: parseMarkdownToDocxF fuel rest inCode buf
    else if isPrefixL "```" trimmed then
      if inCode then
        .codeBlock ⟨joinNl buf⟩ :: parseMarkdownToDocxF fuel rest false []
      else parseMarkdownToDocxF fuel rest true buf
    else if inCode then
      parseMarkdownToDocxF fuel rest inCode (buf ++ [line])
    else if (match rest with
             | next :: _ => setextRunTest '=' (trimL next)
             | [] => false) then
      .heading 1 (parseInlineFormattingL trimmed) ::
        parseMarkdownToDocxF fuel (rest.drop 1) inCode buf
    else if (match rest with
             | next :: _ => setextRunTest '-' (trimL next)
             | [] => false) then
      .heading 2 (parseInlineFormattingL trimmed) ::
        parseMarkdownToDocxF fuel (rest.drop 1) inCode buf
    else if containsSub "|" trimmed && isPrefixL "|" trimmed then
      let grabbed := rest.takeWhile (fun l2 => containsSub "|" (trimL l2))
      let tableLines := line :: grabbed
      let tail := parseMarkdownToDocxF fuel (rest.drop grabbed.length) inCode buf
      if tableLines.length ≥ 2 then
        let t := parseMarkdownTableL (joinNl tableLines)
        if !t.1.isEmpty then
          .docxTable (t.1.map (⟨·⟩)) (t.2.map (fun r => r.map (⟨·⟩))) ::
            .tableSpacer :: tail
        else tail
      else tail
    else if trimmed.isEmpty then
      .blankP :: parseMarkdownToDocxF fuel rest inCode buf
    else
      (if isPrefixL "# " trimmed then
        .heading 1 (parseInlineFormattingL (trimmed.drop 2))
      else if isPrefixL "## " trimmed then
        .heading 2 (parseInlineFormattingL (trimmed.drop 3))
      else if isPrefixL "### " trimmed then
        .heading 3 (parseInlineFormattingL (trimmed.drop 4))
      else if isPrefixL "#### " trimmed then
        .heading 4 (parseInlineFormattingL (trimmed.drop 5))
      else if isPrefixL ">" trimmed then
        .blockquote (bqLevel trimmed) ⟨stripMarkdownL (bqText trimmed)⟩
      else if bulletTest line then
        .bulletItem (indentOf line) (parseInlineFormattingL (bulletStrip line))
      else if numTest line then
        .numberedItem (indentOf line) (parseInlineFormattingL (numStrip line))
      else
        .para (parseInlineFormattingL trimmed ++
          if endsTwoSpaces line then [.brk] else [])) ::
        parseMarkdownToDocxF fuel rest inCode buf

/-- `parseMarkdownToDocx` from `src/utils/exporter.ts` /
`src/utils/core-exports.ts`. -/
def parseMarkdownToDocx (content : String) : List DocxElement :=
  let lines := splitNl content.data
  parseMarkdownToDocxF (lines.length + 1) lines false []


/-- `encodeRTFText` on one character: characters above 127 become a decimal
`\uNNN?` escape, and backslash and braces are backslash-escaped. -/
def encodeRTFChar (c : Char) : List Char :=
  if c.toNat > 127 then '\\' :: 'u' :: (toString c.toNat).data ++ ['?']
  else if c == '\\' || c == '\x7b' || c == '\x7d' then ['\\', c]
  else [c]

/-- `encodeRTFText` from `src/utils/exporter.ts`. -/
def encodeRTFTextL (l : List Char) : List Char := l.flatMap encodeRTFChar

/-- `encodeRTFText` on Lean strings. -/
def encodeRTFText (s : String) : String := ⟨encodeRTFTextL s.data⟩

/-- The `parseInlineToRTF` if-chain on one (non-empty) split part, in source
order, producing the RTF fragment for that part. -/
def rtfRunOf (part : List Char) : List Char :=
  if isPrefixL "$$" part && isSuffixL "$$" part then
    "\x7b\\i\\cf4\\f2 ".data ++ encodeRTFTextL (sliceLC 2 2 part) ++ ['\x7d']
  else if isPrefixL "$" part && isSuffixL "$" part then
    "\x7b\\i\\cf4\\f2 ".data ++ encodeRTFTextL (sliceLC 1 1 part) ++ ['\x7d']
  else if isPrefixL "***" part && isSuffixL "***" part then
    "\x7b\\b\\i ".data ++ encodeRTFTextL (sliceLC 3 3 part) ++ ['\x7d']
  else if isPrefixL "___" part && isSuffixL "___" part then
    "\x7b\\b\\i ".data ++ encodeRTFTextL (sliceLC 3 3 part) ++ ['\x7d']
  else if isPrefixL "**" part && isSuffixL "**" part then
    "\x7b\\b ".data ++ encodeRTFTextL (sliceLC 2 2 part) ++ ['\x7d']
  else if isPrefixL "__" part && isSuffixL "__" part then
    "\x7b\\b ".data ++ encodeRTFTextL (sliceLC 2 2 part) ++ ['\x7d']
  else if isPrefixL "*" part && isSuffixL "*" part then
    "\x7b\\i ".data ++ encodeRTFTextL (sliceLC 1 1 part) ++ ['\x7d']
  else if isPrefixL "_" part && isSuffixL "_" part then
    "\x7b\\i ".data ++ encodeRTFTextL (sliceLC 1 1 part) ++ ['\x7d']
  else if isPrefixL "\x60" part && isSuffixL "\x60" part then
    "\x7b\\f1\\highlight3 ".data ++ encodeRTFTextL (sliceLC 1 1 part) ++ ['\x7d']
  else if containsBrI part then "\\line ".data
  else encodeRTFTextL part

/-- `parseInlineToRTF` from `src/utils/exporter.ts`: split on the inline
alternation, skip falsy (empty) parts, append each part's RTF fragment. -/
def parseInlineToRTFL (text : List Char) : List Char :=
  (((inlineSplit text).filter (fun p => !p.isEmpty)).map rtfRunOf).flatten

/-- `parseInlineToRTF` on Lean strings. -/
def parseInlineToRTF (s : String) : String := ⟨parseInlineToRTFL s.data⟩

/-- The RTF fragment for one table group (header row with shaded bold cells,
then data rows), as assembled by the table branch of `parseMarkdownToRTF`
with `cellWidth = 3000`. -/
def rtfTableBlock (headers : List (List Char))
    (rows : List (List (List Char))) : List Char :=
  "\\trowd\\trgaph108\\trleft-108".data ++
  ((List.range headers.length).map (fun j =>
    "\\clcbpat5\\clbrdrt\\brdrs\\brdrw10\\clbrdrl\\brdrs\\brdrw10\\clbrdrb\\brdrs\\brdrw10\\clbrdrr\\brdrs\\brdrw10\\cellx".data ++
      (toString ((j + 1) * 3000)).data)).flatten ++
  "\\pard\\intbl\\ql ".data ++
  (headers.map (fun h =>
    "\x7b\\b ".data ++ parseInlineToRTFL h ++ "\x7d\\cell ".data)).flatten ++
  "\\row\n".data ++
  (rows.map (fun row =>
    "\\trowd\\trgaph108\\trleft-108".data ++
    ((List.range row.length).map (fun j =>
      "\\clbrdrt\\brdrs\\brdrw10\\clbrdrl\\brdrs\\brdrw10\\clbrdrb\\brdrs\\brdrw10\\clbrdrr\\brdrs\\brdrw10\\cellx".data ++
        (toString ((j + 1) * 3000)).data)).flatten ++
    "\\pard\\intbl\\ql ".data ++
    (row.map (fun cell => parseInlineToRTFL cell ++ "\\cell ".data)).flatten ++
    "\\row\n".data)).flatten ++
  "\\pard\\sa200\\par\n".data

/-- Fuelled main loop of `parseMarkdownToRTF`, with the same branch order and
line handling as `parseMarkdownToDocxF`; the accumulated RTF body is the
concatenation of the per-block fragments.  As in the docx parser, a fence
left open at end of input discards its buffered lines. -/
def parseMarkdownToRTFF :
    Nat → List (List Char) → Bool → List (List Char) → List Char
  | 0, _, _, _ => []
  | _ + 1, [], _, _ => []
  | fuel + 1, line :: rest, inCode, buf =>
    let trimmed := trimL line
    if hrTest trimmed then
      "\\pard\\sb200\\sa200\\brdrb\\brdrs\\brdrw10\\brdrcf6\\par\n".data ++
        parseMarkdownToRTFF fuel rest inCode buf
    else if isPrefixL "```" trimmed then
      if inCode then
        "\x7b\\pard\\f1\\fs20\\highlight3 ".data ++
          encodeRTFTextL (List.intercalate "\\line\n".data buf) ++
          "\\par\x7d\n".data ++ parseMarkdownToRTFF fuel rest false []
      else parseMarkdownToRTFF fuel rest true buf
    else if inCode then
      parseMarkdownToRTFF fuel rest inCode (buf ++ [line])
    else if (match rest with
             | next :: _ => setextRunTest '=' (trimL next)
             | [] => false) then
      "\x7b\\pard\\b\\fs40\\sb400\\sa200 ".data ++ parseInlineToRTFL trimmed ++
        "\\par\x7d\n".data ++ parseMarkdownToRTFF fuel (rest.drop 1) inCode buf
    else if (match rest with
             | next :: _ => setextRunTest '-' (trimL next)
             | [] => false) then
      "\x7b\\pard\\b\\fs32\\sb300\\sa150 ".data ++ parseInlineToRTFL trimmed ++
        "\\par\x7d\n".data ++ parseMarkdownToRTFF fuel (rest.drop 1) inCode buf
    else if containsSub "|" trimmed && isPrefixL "|" trimmed then
      let grabbed := rest.takeWhile (fun l2 => containsSub "|" (trimL l2))
      let tableLines := line :: grabbed
      let tail := parseMarkdownToRTFF fuel (rest.drop grabbed.length) inCode buf
      if tableLines.length ≥ 2 then
        let t := parseMarkdownTableL (joinNl tableLines)
        if !t.1.isEmpty then rtfTableBlock t.1 t.2 ++ tail else tail
      else tail
    else if trimmed.isEmpty then
      "\\pard\\sa100\\par\n".data ++ parseMarkdownToRTFF fuel rest inCode buf
    else
      (if isPrefixL "# " trimmed then
        "\x7b\\pard\\b\\fs40\\sb400\\sa200 ".data ++
          parseInlineToRTFL (trimmed.drop 2) ++ "\\par\x7d\n".data
      else if isPrefixL "## " trimmed then
        "\x7b\\pard\\b\\fs32\\sb300\\sa150 ".data ++
          parseInlineToRTFL (trimmed.drop 3) ++ "\\par\x7d\n".data
      else if isPrefixL "### " trimmed then
        "\x7b\\pard\\b\\fs28\\sb250\\sa100 ".data ++
          parseInlineToRTFL (trimmed.drop 4) ++ "\\par\x7d\n".data
      else if isPrefixL "#### " trimmed then
        "\x7b\\pard\\b\\fs26\\sb200\\sa100 ".data ++
          parseInlineToRTFL (trimmed.drop 5) ++ "\\par\x7d\n".data
      else if isPrefixL ">" trimmed then
        "\x7b\\pard\\li".data ++ (toString (bqLevel trimmed * 720)).data ++
          "\\cf2\\i\\sa100 ".data ++ parseInlineToRTFL (bqText trimmed) ++
          "\\par\x7d\n".data
      else if bulletTest line then
        "\x7b\\pard\\li".data ++ (toString ((indentOf line + 1) * 360)).data ++
          "\\fi-360\\'b7\\tab ".data ++ parseInlineToRTFL (bulletStrip line) ++
          "\\par\x7d\n".data
      else if numTest line then
        "\x7b\\pard\\li".data ++ (toString ((indentOf line + 1) * 360)).data ++
          "\\fi-360 ".data ++ numToken line ++ "\\tab ".data ++
          parseInlineToRTFL (numStrip line) ++ "\\par\x7d\n".data
      else
        "\x7b\\pard\\sa150 ".data ++ parseInlineToRTFL trimmed ++
          "\\par\x7d\n".data) ++
        parseMarkdownToRTFF fuel rest inCode buf

/-- `parseMarkdownToRTF` from `src/utils/exporter.ts` /
`src/utils/core-exports.ts` (the RTF body; `exportAsRTF` wraps it in the
fixed font/color-table header). -/
def parseMarkdownToRTF (content : String) : String :=
  let lines := splitNl content.data
  ⟨parseMarkdownToRTFF (lines.length + 1) lines false []⟩


/-- Outcome of one `CallToolRequestSchema` call: either the caught error
response (`{ content: [{type:'text', text:'Error: …'}], isError: true }`) or
a dispatch into the named converter (with the requested output path). -/
inductive ToolOutcome
  | callError (msg : String)
  | dispatched (tool : String) (outputPath : Option String)
  deriving Repr, DecidableEq

/-- The tool names the `api/mcp.ts` call handler dispatches on. -/
def mcpToolNames : List String :=
  ["harmonize_markdown", "convert_to_txt", "convert_to_rtf", "convert_to_latex",
   "convert_to_docx", "convert_to_csv", "convert_to_json", "convert_to_xml",
   "convert_to_xlsx", "convert_to_html", "convert_to_pdf", "convert_to_image",
   "convert_to_md", "generate_html"]

/-- The `CallToolRequestSchema` handler of `api/mcp.ts`: it reads
`args.markdown` and throws `"Markdown content is required"` when it is falsy
(absent or the empty string) before any converter or `handleOutput` file
write runs; otherwise it dispatches on the tool name, and an unknown name
throws `"Unknown tool: …"`.  Thrown errors are caught and returned as an
`isError` text response.  The converter bodies themselves are modelled
opaquely by the `dispatched` tag, since every claim about this handler
concerns only the pre-dispatch guard and the dispatch ordering. -/
def callToolHandler (name : String) (markdown : Option String)
    (outputPath : Option String) : ToolOutcome :=
  let truthy :=
    match markdown with
    | some s => !s.isEmpty
    | none => false
  if !truthy then .callError "Markdown content is required"
  else if mcpToolNames.contains name then .dispatched name outputPath
  else .callError ("Unknown tool: " ++ name)

/-- Claim-side predicate (C5, from the spec's words): the row's cells are
composed only of dashes, colons and whitespace. -/
def specSepCellsOnly (line : List Char) : Bool :=
  (((splitOnChar '|' line).map trimL).filter (fun c => !c.isEmpty)).all
    (fun c => c.all (fun ch => ch == '-' || ch == ':' || jsWs ch))

/-- Claim-side predicate (C6, from the spec's words): after trimming, the
line consists of 3 or more repetitions of the same character `*`, `-` or
`_`. -/
def specHrRepeat (t : List Char) : Bool :=
  t.length ≥ 3 && (t.all (· == '*') || t.all (· == '-') || t.all (· == '_'))

/-- Amended horizontal-rule condition (C6): the trimmed line is exactly
`***`, exactly `---`, or four or more underscores. -/
def hrAmended (t : List Char) : Bool :=
  t == "***".data || t == "---".data || (t.length ≥ 4 && t.all (· == '_'))

/-- Claim-side predicate (C7, from the spec's words): a separator row made
of dashes/colons only (at least one cell, every cell only dashes/colons). -/
def specSeparatorRow (line : List Char) : Bool :=
  let cells := tableCells line
  !cells.isEmpty && cells.all (fun c => c.all (fun ch => ch == '-' || ch == ':'))

/-- Drop at most `n` leading space characters. -/
def dropUpToSpaces : Nat → List Char → List Char
  | 0, l => l
  | n + 1, ' ' :: l => dropUpToSpaces n l
  | _ + 1, l => l

/-- Claim-side blockquote stripping (C8, from the spec's words): remove the
leading `'>'` run and one following space per quote level, leaving the rest
of the line's text intact. -/
def specBqStrip (t : List Char) : List Char :=
  let run := t.takeWhile (· == '>')
  dropUpToSpaces run.length (t.drop run.length)

/-- Characters inert for every `stripMarkdown` pass: ASCII letters and
digits, the space, and the period.  None of them can start (or continue
into) any of the stripper's patterns. -/
def plainCh (c : Char) : Bool := c.isAlphanum || c == ' ' || c == '.'

/-- The classifier guards of `parseInlineFormatting` on an unmatched
fragment: the fragment starts and ends with the same inline delimiter (or
contains a case-insensitive `<br>`), so the if-chain reinterprets it as a
formatted run instead of plain text. -/
def delimWrapped (part : List Char) : Bool :=
  (isPrefixL "$$" part && isSuffixL "$$" part) ||
  (isPrefixL "$" part && isSuffixL "$" part) ||
  (isPrefixL "***" part && isSuffixL "***" part) ||
  (isPrefixL "___" part && isSuffixL "___" part) ||
  (isPrefixL "**" part && isSuffixL "**" part) ||
  (isPrefixL "__" part && isSuffixL "__" part) ||
  (isPrefixL "*" part && isSuffixL "*" part) ||
  (isPrefixL "_" part && isSuffixL "_" part) ||
  (isPrefixL "\x60" part && isSuffixL "\x60" part) ||
  containsBrI part
/-- The docx block parser restricted to a one-line document (each branch of
the loop body sees an empty rest, so the table group is the single line and
the setext lookahead never fires). -/
def docxSingleLine (l : List Char) : List DocxElement :=
  if hrTest (trimL l) then [.hruleP]
  else if isPrefixL "```" (trimL l) then []
  else if containsSub "|" (trimL l) && isPrefixL "|" (trimL l) then []
  else if (trimL l).isEmpty then [.blankP]
  else
    [if isPrefixL "# " (trimL l) then
      .heading 1 (parseInlineFormattingL ((trimL l).drop 2))
    else if isPrefixL "## " (trimL l) then
      .heading 2 (parseInlineFormattingL ((trimL l).drop 3))
    else if isPrefixL "### " (trimL l) then
      .heading 3 (parseInlineFormattingL ((trimL l).drop 4))
    else if isPrefixL "#### " (trimL l) then
      .heading 4 (parseInlineFormattingL ((trimL l).drop 5))
    else if isPrefixL ">" (trimL l) then
      .blockquote (bqLevel (trimL l)) ⟨stripMarkdownL (bqText (trimL l))⟩
    else if bulletTest l then
      .bulletItem (indentOf l) (parseInlineFormattingL (bulletStrip l))
    else if numTest l then
      .numberedItem (indentOf l) (parseInlineFormattingL (numStrip l))
    else .para (parseInlineFormattingL (trimL l) ++
      if endsTwoSpaces l then [.brk] else [])]

/-- The RTF block parser restricted to a one-line document. -/
def rtfSingleLine (l : List Char) : List Char :=
  if hrTest (trimL l) then
    "\\pard\\sb200\\sa200\\brdrb\\brdrs\\brdrw10\\brdrcf6\\par\n".data
  else if isPrefixL "```" (trimL l) then []
  else if containsSub "|" (trimL l) && isPrefixL "|" (trimL l) then []
  else if (trimL l).isEmpty then "\\pard\\sa100\\par\n".data
  else if isPrefixL "# " (trimL l) then
    "\x7b\\pard\\b\\fs40\\sb400\\sa200 ".data ++
      parseInlineToRTFL ((trimL l).drop 2) ++ "\\par\x7d\n".data
  else if isPrefixL "## " (trimL l) then
    "\x7b\\pard\\b\\fs32\\sb300\\sa150 ".data ++
      parseInlineToRTFL ((trimL l).drop 3) ++ "\\par\x7d\n".data
  else if isPrefixL "### " (trimL l) then
    "\x7b\\pard\\b\\fs28\\sb250\\sa100 ".data ++
      parseInlineToRTFL ((trimL l).drop 4) ++ "\\par\x7d\n".data
  else if isPrefixL "#### " (trimL l) then
    "\x7b\\pard\\b\\fs26\\sb200\\sa100 ".data ++
      parseInlineToRTFL ((trimL l).drop 5) ++ "\\par\x7d\n".data
  else if isPrefixL ">" (trimL l) then
    "\x7b\\pard\\li".data ++ (toString (bqLevel (trimL l) * 720)).data ++
      "\\cf2\\i\\sa100 ".data ++ parseInlineToRTFL (bqText (trimL l)) ++
      "\\par\x7d\n".data
  else if bulletTest l then
    "\x7b\\pard\\li".data ++ (toString ((indentOf l + 1) * 360)).data ++
      "\\fi-360\\'b7\\tab ".data ++ parseInlineToRTFL (bulletStrip l) ++
      "\\par\x7d\n".data
  else if numTest l then
    "\x7b\\pard\\li".data ++ (toString ((indentOf l + 1) * 360)).data ++
      "\\fi-360 ".data ++ numToken l ++ "\\tab ".data ++
      parseInlineToRTFL (numStrip l) ++ "\\par\x7d\n".data
  else
    "\x7b\\pard\\sa150 ".data ++ parseInlineToRTFL (trimL l) ++ "\\par\x7d\n".data

/-- C1 counterexample: `stripMarkdown` is not idempotent.  On `"\# T"` the
escape-removal pass re-exposes a live ATX heading marker (`"# T"`), which a
second application then strips to `"T"`. -/
theorem C1_counterexample :
    stripMarkdown (stripMarkdown "\\# T") ≠ stripMarkdown "\\# T" := by decide

/-- C2: an opened-but-never-closed code fence loses its buffered lines at
end of input — both block parsers emit nothing at all for `"```\nhello"`
(the docx element list is empty and the RTF body is the empty string),
contradicting the specified no-data-loss behaviour. -/
theorem C2_unterminated_fence_dropped :
    parseMarkdownToDocx "```\nhello" = [] ∧
    parseMarkdownToRTF "```\nhello" = "" := by
  exact ⟨by decide, by decide⟩

/-- C3 counterexample: for `"# Title\n\nSome *text*."` the LaTeX output does
not contain the sectioning command `\section{Title}`: the escaping pass runs
after substitution and corrupts the inserted command's braces. -/
theorem C3_counterexample :
    containsSub "\\section\x7bTitle\x7d"
      (exportAsLaTeX "# Title\n\nSome *text*." "document").data = false := by
  decide

/-- C3 amended: the output contains the brace-escaped forms
`\section\{Title\}` and `\textit\{text\}` produced by the
escape-after-substitute ordering, and no leftover `#` or `*` characters. -/
theorem C3_latex_escaped_commands :
    exportAsLaTeX "# Title\n\nSome *text*." "document" =
      latexHeader "document" ++
        "\\section\\\x7bTitle\\\x7d\n\nSome \\textit\\\x7btext\\\x7d." ++
        "\n\\end\x7bdocument\x7d" ∧
    containsSub "\\section\\\x7bTitle\\\x7d"
      (exportAsLaTeX "# Title\n\nSome *text*." "document").data = true ∧
    containsSub "\\textit\\\x7btext\\\x7d"
      (exportAsLaTeX "# Title\n\nSome *text*." "document").data = true ∧
    (exportAsLaTeX "# Title\n\nSome *text*." "document").data.all
      (fun c => c != '#' && c != '*') = true := by
  refine ⟨by decide, by decide, by decide, by decide⟩

/-- C4: the three-line pipe table with headers `A`, `B`, a dash separator
row and one data row `1`, `2` produces exactly the claimed CSV string (cells
double-quote wrapped, rows newline-terminated, separator row excluded). -/
theorem C4_csv_concrete :
    generateCSV "| A | B |\n|---|---|\n| 1 | 2 |" =
      "\"A\",\"B\"\n\"1\",\"2\"\n" := by decide

/-- C5 counterexample: the row `"| :-: |"` has cells composed only of
dashes/colons/whitespace, yet the CSV generator retains it (the code's drop
test is `line.includes('---')`, which this separator-style row fails). -/
theorem C5_counterexample :
    specSepCellsOnly "| :-: |".data = true ∧ generateCSV "| :-: |" ≠ "" := by
  exact ⟨by decide, by decide⟩

/-- C6 counterexample: the line `"___"` consists of three repetitions of
`'_'`, yet neither block parser classifies it as a horizontal rule (the
parsers' regex needs exactly `***`, exactly `---`, or four-plus
underscores); it becomes a paragraph with an empty bold-italic run. -/
theorem C6_counterexample :
    specHrRepeat (trimL "___".data) = true ∧
    parseMarkdownToDocx "___" = [.para [.boldItalic ""]] ∧
    parseMarkdownToRTF "___" ≠
      "\\pard\\sb200\\sa200\\brdrb\\brdrs\\brdrw10\\brdrcf6\\par\n" := by
  refine ⟨by decide, by decide, by decide⟩

/-- C7 counterexample: two collected pipe lines with no separator row of any
kind still emit a table (headers from line 0, line 1 silently skipped), so a
header-plus-separator pair is not in fact required. -/
theorem C7_counterexample :
    parseMarkdownToDocx "| a |\n| b |" = [.docxTable ["a"] [], .tableSpacer] ∧
    (splitNl "| a |\n| b |".data).all (fun l => !specSeparatorRow l) = true := by
  exact ⟨by decide, by decide⟩

/-- C8 counterexample: for the line `">  a"` (two spaces after the marker)
the claim's stripping — the `'>'` run plus one space per level — leaves
`" a"`, but the code's `replace(/^>+\s*/, '')` strips all following
whitespace and leaves `"a"`, as the RTF output shows verbatim. -/
theorem C8_counterexample :
    specBqStrip (trimL ">  a".data) = " a".data ∧
    bqText (trimL ">  a".data) = "a".data ∧
    parseMarkdownToRTF ">  a" = "\x7b\\pard\\li720\\cf2\\i\\sa100 a\\par\x7d\n" ∧
    parseMarkdownToRTF ">  a" ≠
      "\x7b\\pard\\li720\\cf2\\i\\sa100  a\\par\x7d\n" := by
  refine ⟨by decide, by decide, by decide, by decide⟩

/-- C10 counterexample: on the input `"$"` the split regex matches nothing
(the whole input comes back as the single fragment `"$"`), yet the
classifier's `startsWith('$') && endsWith('$')` test is satisfied by the
single character, so the fragment comes back as an empty math run instead of
a plain-text run. -/
theorem C10_counterexample :
    inlineSplit "$".data = ["$".data] ∧
    parseInlineFormatting "$" = [.math ""] ∧
    parseInlineFormatting "$" ≠ [.text "$"] := by
  refine ⟨by decide, by decide, by decide⟩

/-- C9: a conversion tool call with no markdown supplied is rejected with
the fixed caller-input error `"Markdown content is required"` before any
dispatch, for every tool name and output path; no converter is entered and
nothing is written. -/
theorem C9_missing_markdown_rejected (name : String) (outputPath : Option String) :
    callToolHandler name none outputPath =
      .callError "Markdown content is required" ∧
    ∀ tool p, callToolHandler name none outputPath ≠ .dispatched tool p := by
  refine ⟨rfl, ?_⟩
  intro tool p h
  simp [callToolHandler] at h

/-- C9 witness: the rejection at a concrete call
(`convert_to_txt` with an output path, markdown absent). -/
theorem C9_missing_markdown_rejected_witness :
    callToolHandler "convert_to_txt" none (some "out.txt") =
      .callError "Markdown content is required" ∧
    ∀ tool p, callToolHandler "convert_to_txt" none (some "out.txt") ≠
      .dispatched tool p :=
  C9_missing_markdown_rejected "convert_to_txt" (some "out.txt")

/-- `trimL` is front-trim (`dropWhile`) followed by back-trim (`rdropWhile`). -/
theorem trimL_eq_rdropWhile (l : List Char) :
    trimL l = List.rdropWhile jsWs (l.dropWhile jsWs) := rfl

/-- Front-trimming an already fully trimmed list changes nothing. -/
theorem dropWhile_rdropWhile_dropWhile (l : List Char) :
    List.dropWhile jsWs (List.rdropWhile jsWs (l.dropWhile jsWs)) =
      List.rdropWhile jsWs (l.dropWhile jsWs) := by
  rw [List.dropWhile_eq_self_iff]
  intro hl
  have hpre : List.rdropWhile jsWs (l.dropWhile jsWs) <+: l.dropWhile jsWs :=
    List.rdropWhile_prefix _ _
  have hlen : 0 < (l.dropWhile jsWs).length :=
    lt_of_lt_of_le hl hpre.length_le
  have h0 := List.dropWhile_get_zero_not jsWs l hlen
  simp only [List.get_eq_getElem] at h0 ⊢
  rw [hpre.getElem hl]
  exact h0

/-- JavaScript `trim` is idempotent. -/
theorem trimL_idem (l : List Char) : trimL (trimL l) = trimL l := by
  rw [trimL_eq_rdropWhile, trimL_eq_rdropWhile, dropWhile_rdropWhile_dropWhile,
    List.rdropWhile_idempotent]

/-- Every character of `trimL l` is a character of `l`. -/
theorem trimL_subset (l : List Char) : trimL l ⊆ l := by
  intro c hc
  unfold trimL at hc
  rw [List.mem_reverse] at hc
  have h1 := (List.dropWhile_sublist (l := (l.dropWhile jsWs).reverse)
    (p := jsWs)).subset hc
  rw [List.mem_reverse] at h1
  exact (List.dropWhile_sublist (l := l) (p := jsWs)).subset h1

/-- `l.all p` transfers to any subset. -/
theorem all_of_subset {p : Char → Bool} {l m : List Char} (hs : m ⊆ l)
    (h : l.all p = true) : m.all p = true := by
  rw [List.all_eq_true] at h ⊢
  exact fun x hx => h x (hs hx)

/-- A global replacement pass is the identity when the matcher refuses every
suffix of the input (induction on fuel over the scanning loop). -/
theorem gReplaceF_eq_self (pat : Bool → List Char → Option (Nat × List Char))
    (P : Char → Bool) (hpat : ∀ b m, m.all P = true → pat b m = none) :
    ∀ fuel b l, l.all P = true → gReplaceF pat fuel b l = l := by
  intro fuel
  induction fuel with
  | zero => intro b l _; rfl
  | succ n ih =>
    intro b l hl
    cases l with
    | nil => rfl
    | cons c cs =>
      have hcs : cs.all P = true := by
        simp only [List.all_cons, Bool.and_eq_true] at hl
        exact hl.2
      rw [gReplaceF, hpat b (c :: cs) hl]
      simp only
      rw [ih (c == '\n') cs hcs]

/-- `gReplace` form of `gReplaceF_eq_self`. -/
theorem gReplace_eq_self {pat : Bool → List Char → Option (Nat × List Char)}
    {P : Char → Bool} (hpat : ∀ b m, m.all P = true → pat b m = none)
    {l : List Char} (hl : l.all P = true) : gReplace pat l = l :=
  gReplaceF_eq_self pat P hpat (l.length + 1) true l hl

/-- A head character of an all-`plainCh` list never equals a given
non-plain character (boolean form used by the matcher lemmas). -/
theorem head?_beq_false {l : List Char} {d : Char} (hd : plainCh d = false)
    (h : l.all plainCh = true) : (l.head? == some d) = false := by
  cases l with
  | nil => rfl
  | cons c cs =>
    have hc : plainCh c = true := by
      simp only [List.all_cons, Bool.and_eq_true] at h
      exact h.1
    simp only [List.head?]
    have hcd : (c == d) = false := by
      cases hcd : c == d
      · rfl
      · rw [eq_of_beq hcd] at hc
        rw [hc] at hd
        cases hd
    simp [hcd]

/-- An all-`plainCh` list cannot start with a literal pattern whose
characters include a non-plain one. -/
theorem isPrefixL_false_of_plain {s : String} {l : List Char} {c : Char}
    (hc : c ∈ s.data) (hpc : plainCh c = false) (h : l.all plainCh = true) :
    isPrefixL s l = false := by
  cases hpre : isPrefixL s l
  · rfl
  · exfalso
    unfold isPrefixL at hpre
    have hsub : s.data ⊆ l := (List.isPrefixOf_iff_prefix.mp hpre).subset
    have := (List.all_eq_true.mp h) c (hsub hc)
    rw [hpc] at this
    cases this

/-- The head given by `head?` is a member of the list. -/
theorem mem_of_head? {l : List Char} {c : Char} (h : l.head? = some c) : c ∈ l := by
  cases l with
  | nil => cases h
  | cons a as =>
    have : a = c := by simpa using h
    subst this
    exact List.mem_cons_self _ _

/-- Membership version of `List.all`. -/
theorem plain_of_mem {l : List Char} {c : Char} (hc : c ∈ l)
    (h : l.all plainCh = true) : plainCh c = true :=
  List.all_eq_true.mp h c hc

/-- A plain character is never (boolean-)equal to a non-plain one. -/
theorem plain_beq_false {c d : Char} (hc : plainCh c = true)
    (hd : plainCh d = false) : (c == d) = false := by
  cases hcd : c == d
  · rfl
  · rw [eq_of_beq hcd] at hc
    rw [hc] at hd
    cases hd

/-- `takeWhile` over an all-plain list is empty when the scanned class
rejects every plain character. -/
theorem takeWhile_nil_of_plain {q : Char → Bool}
    (hq : ∀ c, plainCh c = true → q c = false) {l : List Char}
    (h : l.all plainCh = true) : l.takeWhile q = [] := by
  cases l with
  | nil => rfl
  | cons c cs =>
    have hc : plainCh c = true := plain_of_mem (List.mem_cons_self _ _) h
    simp [List.takeWhile_cons, hq c hc]

theorem tryFence_none {b : Bool} {l : List Char} (h : l.all plainCh = true) :
    tryFence b l = none := by
  unfold tryFence
  rw [isPrefixL_false_of_plain (s := "```") (c := '\x60') (by decide) (by decide) h]
  rfl

theorem tryTableSep_none {b : Bool} {l : List Char} (h : l.all plainCh = true) :
    tryTableSep b l = none := by
  cases b with
  | false => rfl
  | true =>
    simp only [tryTableSep, Bool.not_true, Bool.false_eq_true, if_false]
    rw [head?_beq_false (by decide) h]
    simp only [Bool.false_eq_true, if_false, List.drop_zero]
    cases hrun : (l.takeWhile sepCh).isEmpty
    · simp only [Bool.false_eq_true, if_false]
      rw [head?_beq_false (by decide) (all_of_subset (List.drop_subset _ _) h)]
      rfl
    · rfl

theorem tryHrStrip_none {b : Bool} {l : List Char} (h : l.all plainCh = true) :
    tryHrStrip b l = none := by
  cases b with
  | false => rfl
  | true =>
    simp only [tryHrStrip, Bool.not_true, Bool.false_eq_true, if_false]
    cases hh : (l.drop (l.takeWhile jsWs).length).head? with
    | none => rfl
    | some c =>
      have hc : plainCh c = true :=
        plain_of_mem (mem_of_head? hh) (all_of_subset (List.drop_subset _ _) h)
      simp [plain_beq_false hc (show plainCh '*' = false by decide),
        plain_beq_false hc (show plainCh '_' = false by decide),
        plain_beq_false hc (show plainCh '-' = false by decide)]

theorem trySetextStrip_none {b : Bool} {l : List Char} (h : l.all plainCh = true) :
    trySetextStrip b l = none := by
  cases b with
  | false => rfl
  | true =>
    simp only [trySetextStrip, Bool.not_true, Bool.false_eq_true, if_false]
    rw [takeWhile_nil_of_plain
      (fun c hc => by
        rw [plain_beq_false hc (show plainCh '=' = false by decide),
          plain_beq_false hc (show plainCh '-' = false by decide)]
        rfl)
      (all_of_subset (List.drop_subset _ _) h)]
    simp

theorem tryBqStrip_none {b : Bool} {l : List Char} (h : l.all plainCh = true) :
    tryBqStrip b l = none := by
  cases b with
  | false => rfl
  | true =>
    simp only [tryBqStrip, Bool.not_true, Bool.false_eq_true, if_false]
    rw [takeWhile_nil_of_plain
      (fun c hc => plain_beq_false hc (show plainCh '>' = false by decide))
      (all_of_subset (List.drop_subset _ _) h)]
    simp

theorem tryAtxStrip_none {b : Bool} {l : List Char} (h : l.all plainCh = true) :
    tryAtxStrip b l = none := by
  cases b with
  | false => rfl
  | true =>
    simp only [tryAtxStrip, Bool.not_true, Bool.false_eq_true, if_false]
    rw [takeWhile_nil_of_plain
      (fun c hc => plain_beq_false hc (show plainCh '#' = false by decide)) h]
    simp

theorem tryWrap_none {dcls ccls : Char → Bool} {k : Nat} (hk : 0 < k)
    (hd : ∀ c, plainCh c = true → dcls c = false) {b : Bool} {l : List Char}
    (h : l.all plainCh = true) : tryWrap dcls ccls k b l = none := by
  unfold tryWrap
  cases l with
  | nil =>
    have hne : ((0 : Nat) == k) = false := beq_eq_false_iff_ne.mpr (by omega)
    simp [hne]
  | cons c cs =>
    have hc : plainCh c = true := plain_of_mem (List.mem_cons_self _ _) h
    cases k with
    | zero => omega
    | succ m =>
      simp [List.take_succ_cons, List.all_cons, hd c hc]

theorem tryMathBlockStrip_none {b : Bool} {l : List Char}
    (h : l.all plainCh = true) : tryMathBlockStrip b l = none := by
  unfold tryMathBlockStrip
  rw [isPrefixL_false_of_plain (s := "$$") (c := '$') (by decide) (by decide) h]
  rfl

theorem tryMathInlineStrip_none {b : Bool} {l : List Char}
    (h : l.all plainCh = true) : tryMathInlineStrip b l = none := by
  unfold tryMathInlineStrip
  split
  · exfalso
    simp only [List.all_cons, Bool.and_eq_true] at h
    exact absurd h.1 (by decide)
  · rfl

theorem tryImageStrip_none {b : Bool} {l : List Char} (h : l.all plainCh = true) :
    tryImageStrip b l = none := by
  unfold tryImageStrip
  rw [isPrefixL_false_of_plain (s := "![") (c := '!') (by decide) (by decide) h]
  rfl

theorem tryLinkStrip_none {b : Bool} {l : List Char} (h : l.all plainCh = true) :
    tryLinkStrip b l = none := by
  unfold tryLinkStrip
  split
  · exfalso
    simp only [List.all_cons, Bool.and_eq_true] at h
    exact absurd h.1 (by decide)
  · rfl

theorem tryRefLinkStrip_none {b : Bool} {l : List Char} (h : l.all plainCh = true) :
    tryRefLinkStrip b l = none := by
  unfold tryRefLinkStrip
  split
  · exfalso
    simp only [List.all_cons, Bool.and_eq_true] at h
    exact absurd h.1 (by decide)
  · rfl

theorem tryCheckboxStrip_none {b : Bool} {l : List Char} (h : l.all plainCh = true) :
    tryCheckboxStrip b l = none := by
  unfold tryCheckboxStrip
  split
  · exfalso
    simp only [List.all_cons, Bool.and_eq_true] at h
    exact absurd h.1 (by decide)
  · rfl

theorem tryFootnoteStrip_none {b : Bool} {l : List Char} (h : l.all plainCh = true) :
    tryFootnoteStrip b l = none := by
  unfold tryFootnoteStrip
  rw [isPrefixL_false_of_plain (s := "[^") (c := '[') (by decide) (by decide) h]
  rfl

theorem tryAnchorStrip_none {b : Bool} {l : List Char} (h : l.all plainCh = true) :
    tryAnchorStrip b l = none := by
  unfold tryAnchorStrip
  rw [isPrefixL_false_of_plain (s := "\x7b#") (c := '\x7b') (by decide) (by decide) h]
  rfl

theorem tryHtmlStrip_none {b : Bool} {l : List Char} (h : l.all plainCh = true) :
    tryHtmlStrip b l = none := by
  unfold tryHtmlStrip
  split
  · exfalso
    simp only [List.all_cons, Bool.and_eq_true] at h
    exact absurd h.1 (by decide)
  · rfl

theorem tryUnescape_none {b : Bool} {l : List Char} (h : l.all plainCh = true) :
    tryUnescape b l = none := by
  unfold tryUnescape
  split
  · exfalso
    simp only [List.all_cons, Bool.and_eq_true] at h
    exact absurd h.1 (by decide)
  · rfl

theorem tryNl3_none {b : Bool} {l : List Char} (h : l.all plainCh = true) :
    tryNl3 b l = none := by
  simp only [tryNl3]
  rw [takeWhile_nil_of_plain
    (fun c hc => plain_beq_false hc (show plainCh '\n' = false by decide)) h]
  simp

theorem pipesToSpaces_eq_self {l : List Char} (h : l.all plainCh = true) :
    pipesToSpaces l = l := by
  unfold pipesToSpaces
  induction l with
  | nil => rfl
  | cons c cs ih =>
    simp only [List.all_cons, Bool.and_eq_true] at h
    simp only [List.map_cons]
    rw [plain_beq_false h.1 (show plainCh '|' = false by decide)]
    simp only [Bool.false_eq_true, if_false]
    rw [ih h.2]

/-- The emphasis delimiter class `[*_]` rejects plain characters. -/
theorem emDelim_plain {c : Char} (hc : plainCh c = true) : emDelim c = false := by
  unfold emDelim
  rw [plain_beq_false hc (show plainCh '*' = false by decide),
    plain_beq_false hc (show plainCh '_' = false by decide)]
  rfl

/-- One emphasis-loop iteration is the identity on all-plain input. -/
theorem emPassOnce_eq_self {l : List Char} (h : l.all plainCh = true) :
    emPassOnce l = l := by
  unfold emPassOnce
  rw [gReplace_eq_self
      (fun _ m hm => tryWrap_none (by omega) (fun c hc => emDelim_plain hc) hm) h,
    gReplace_eq_self
      (fun _ m hm => tryWrap_none (by omega) (fun c hc => emDelim_plain hc) hm) h,
    gReplace_eq_self
      (fun _ m hm => tryWrap_none (by omega) (fun c hc => emDelim_plain hc) hm) h,
    gReplace_eq_self
      (fun _ m hm => tryWrap_none (by omega)
        (fun c hc => plain_beq_false hc (show plainCh '~' = false by decide)) hm) h]

/-- A newline-free list splits into itself as the single line. -/
theorem splitOnChar_eq_single {sep : Char} {l : List Char}
    (h : ∀ c ∈ l, (c == sep) = false) : splitOnChar sep l = [l] := by
  induction l with
  | nil => rfl
  | cons c cs ih =>
    unfold splitOnChar
    rw [ih (fun x hx => h x (List.mem_cons_of_mem _ hx)),
      h c (List.mem_cons_self _ _)]
    rfl

/-- Pass 9 reduces to a bare `trim` on all-plain (hence newline-free) input. -/
theorem normalizeStrip_eq_trimL {l : List Char} (h : l.all plainCh = true) :
    normalizeStrip l = trimL l := by
  unfold normalizeStrip
  have hnl : ∀ c ∈ l, (c == '\n') = false := fun c hc =>
    plain_beq_false (plain_of_mem hc h) (show plainCh '\n' = false by decide)
  rw [show splitNl l = [l] from splitOnChar_eq_single hnl]
  simp only [List.map_cons, List.map_nil]
  rw [show joinNl [trimL l] = trimL l by
    simp [joinNl, List.intercalate, List.intersperse]]
  rw [gReplace_eq_self (fun b m hm => tryNl3_none (b := b) hm)
    (all_of_subset (trimL_subset l) h)]
  exact trimL_idem l

/-- On all-plain input every stripping pass is inert, so `stripMarkdown`
reduces to JavaScript `trim`. -/
theorem stripMarkdownL_plain {l : List Char} (h : l.all plainCh = true) :
    stripMarkdownL l = trimL l := by
  simp only [stripMarkdownL]
  split
  · next hl =>
    rw [List.isEmpty_iff.mp hl]
    rfl
  · rw [gReplace_eq_self (fun b m hm => tryFence_none (b := b) hm) h,
      gReplace_eq_self (fun b m hm => tryTableSep_none (b := b) hm) h,
      gReplace_eq_self (fun b m hm => tryHrStrip_none (b := b) hm) h,
      gReplace_eq_self (fun b m hm => trySetextStrip_none (b := b) hm) h,
      gReplace_eq_self (fun b m hm => tryBqStrip_none (b := b) hm) h,
      gReplace_eq_self (fun b m hm => tryAtxStrip_none (b := b) hm) h,
      emPassOnce_eq_self h, emPassOnce_eq_self h, emPassOnce_eq_self h,
      gReplace_eq_self (fun b m hm => tryMathBlockStrip_none (b := b) hm) h,
      gReplace_eq_self (fun b m hm => tryMathInlineStrip_none (b := b) hm) h,
      gReplace_eq_self (fun b m hm => tryImageStrip_none (b := b) hm) h,
      gReplace_eq_self (fun b m hm => tryLinkStrip_none (b := b) hm) h,
      gReplace_eq_self (fun b m hm => tryRefLinkStrip_none (b := b) hm) h,
      gReplace_eq_self (fun b m hm => tryCheckboxStrip_none (b := b) hm) h,
      gReplace_eq_self (fun b m hm => tryFootnoteStrip_none (b := b) hm) h,
      gReplace_eq_self (fun b m hm => tryAnchorStrip_none (b := b) hm) h,
      gReplace_eq_self (fun b m hm => tryWrap_none (b := b) (by omega)
        (fun c hc => by
          rw [plain_beq_false hc (show plainCh '~' = false by decide),
            plain_beq_false hc (show plainCh '^' = false by decide)]
          rfl) hm) h,
      gReplace_eq_self (fun b m hm => tryWrap_none (b := b) (by omega)
        (fun c hc => plain_beq_false hc (show plainCh '\x60' = false by decide)) hm) h,
      gReplace_eq_self (fun b m hm => tryHtmlStrip_none (b := b) hm) h,
      pipesToSpaces_eq_self h,
      gReplace_eq_self (fun b m hm => tryUnescape_none (b := b) hm) h]
    exact normalizeStrip_eq_trimL h

/-- C1 amended: `stripMarkdown` is idempotent on inputs built only of ASCII
letters, digits, spaces and periods — every pass is inert there and the
final normalization is a plain trim, which is idempotent.  (Idempotence
fails on arbitrary strings, see the counterexample.) -/
theorem C1_strip_idempotent_on_plain (s : String)
    (h : s.data.all plainCh = true) :
    stripMarkdown (stripMarkdown s) = stripMarkdown s := by
  show String.mk (stripMarkdownL (stripMarkdownL s.data)) =
    String.mk (stripMarkdownL s.data)
  rw [stripMarkdownL_plain h,
    stripMarkdownL_plain (all_of_subset (trimL_subset _) h), trimL_idem]

/-- C1 amended, witness: idempotence applied at the concrete plain input
`"plain text 42."`. -/
theorem C1_strip_idempotent_on_plain_witness :
    ("plain text 42.".data.all plainCh = true) ∧
    stripMarkdown (stripMarkdown "plain text 42.") =
      stripMarkdown "plain text 42." :=
  ⟨by decide, C1_strip_idempotent_on_plain "plain text 42." (by decide)⟩

/-- The docx loop yields nothing once the line list is exhausted (for any
fuel, code-fence state and buffer — the buffer is discarded). -/
theorem parseMarkdownToDocxF_nil (n : Nat) (b : Bool) (buf : List (List Char)) :
    parseMarkdownToDocxF n [] b buf = [] := by
  cases n <;> rfl

/-- The RTF loop yields the empty body once the line list is exhausted. -/
theorem parseMarkdownToRTFF_nil (n : Nat) (b : Bool) (buf : List (List Char)) :
    parseMarkdownToRTFF n [] b buf = [] := by
  cases n <;> rfl

/-- On a one-line document the fuelled docx loop computes `docxSingleLine`. -/
theorem parseMarkdownToDocxF_single (l : List Char) :
    parseMarkdownToDocxF 2 [l] false [] = docxSingleLine l := by
  unfold parseMarkdownToDocxF docxSingleLine
  simp only [parseMarkdownToDocxF_nil, List.takeWhile_nil, List.drop_nil,
    Bool.false_eq_true, if_false, List.length_cons, List.length_nil]
  norm_num

/-- On a one-line document the fuelled RTF loop computes `rtfSingleLine`. -/
theorem parseMarkdownToRTFF_single (l : List Char) :
    parseMarkdownToRTFF 2 [l] false [] = rtfSingleLine l := by
  unfold parseMarkdownToRTFF rtfSingleLine
  simp only [parseMarkdownToRTFF_nil, List.takeWhile_nil, List.drop_nil,
    Bool.false_eq_true, if_false, List.length_cons, List.length_nil]
  norm_num

/-- Newline-free strings split into themselves as the single line. -/
theorem splitNl_single {l : List Char} (h : '\n' ∉ l) : splitNl l = [l] :=
  splitOnChar_eq_single (fun c hc => beq_eq_false_iff_ne.mpr (fun e => h (e ▸ hc)))

/-- `parseMarkdownToDocx` on a newline-free string. -/
theorem parseMarkdownToDocx_single (s : String) (h : '\n' ∉ s.data) :
    parseMarkdownToDocx s = docxSingleLine s.data := by
  unfold parseMarkdownToDocx
  rw [splitNl_single h]
  exact parseMarkdownToDocxF_single s.data

/-- `parseMarkdownToRTF` on a newline-free string. -/
theorem parseMarkdownToRTF_single (s : String) (h : '\n' ∉ s.data) :
    parseMarkdownToRTF s = ⟨rtfSingleLine s.data⟩ := by
  unfold parseMarkdownToRTF
  rw [splitNl_single h]
  exact congrArg String.mk (parseMarkdownToRTFF_single s.data)

/-- The head of a `dropWhile` result fails the predicate. -/
theorem head?_dropWhile_false {p : Char → Bool} {m : List Char} {c : Char}
    (h : (m.dropWhile p).head? = some c) : p c = false := by
  induction m with
  | nil => cases h
  | cons a as ih =>
    rw [List.dropWhile_cons] at h
    split at h
    · exact ih h
    · next hp =>
      have : a = c := by simpa using h
      subst this
      simpa using hp

/-- The last character of a trimmed list is never whitespace. -/
theorem trimL_getLast?_not_ws {x : List Char} {c : Char}
    (h : (trimL x).getLast? = some c) : jsWs c = false := by
  unfold trimL at h
  rw [List.getLast?_reverse] at h
  exact head?_dropWhile_false h

/-- A whitespace-only suffix (in the `drop` sense) of a trimmed list is
empty: a trimmed list never ends in whitespace. -/
theorem trimL_drop_all_ws {x : List Char} {n : Nat}
    (h : ((trimL x).drop n).all jsWs = true) : (trimL x).drop n = [] := by
  cases hd : (trimL x).drop n with
  | nil => rfl
  | cons a as =>
    exfalso
    have hne : (trimL x).drop n ≠ [] := by rw [hd]; simp
    obtain ⟨pre, hpre⟩ := List.drop_suffix n (trimL x)
    have hgl : (trimL x).getLast? = ((trimL x).drop n).getLast? := by
      conv_lhs => rw [← hpre]
      exact List.getLast?_append_of_ne_nil pre hne
    cases hgl2 : ((trimL x).drop n).getLast? with
    | none =>
      rw [hd] at hgl2
      simp [List.getLast?_eq_none_iff] at hgl2
    | some c =>
      have hcm : c ∈ (trimL x).drop n := by
        obtain ⟨hne2, he⟩ := List.mem_getLast?_eq_getLast (l := (trimL x).drop n)
          (x := c) hgl2
        rw [he]
        exact List.getLast_mem hne2
      have hws : jsWs c = true := List.all_eq_true.mp h c hcm
      have : jsWs c = false := trimL_getLast?_not_ws (hgl.trans hgl2)
      rw [hws] at this
      cases this

/-- Every element of a `takeWhile` result satisfies the predicate. -/
theorem takeWhile_all (p : Char → Bool) (l : List Char) :
    (l.takeWhile p).all p = true := by
  induction l with
  | nil => rfl
  | cons c cs ih =>
    rw [List.takeWhile_cons]
    split
    · next hp => simp [hp, ih]
    · rfl

/-- On trimmed input the parsers' horizontal-rule regex accepts exactly
`***`, `---`, or a run of four-plus underscores (the amended condition):
trailing `\s*` can never consume anything after a trim. -/
theorem hrTest_amended (x : List Char) : hrTest (trimL x) = hrAmended (trimL x) := by
  cases ht : hrTest (trimL x) with
  | true =>
    unfold hrTest at ht
    simp only [Bool.or_eq_true, Bool.and_eq_true, decide_eq_true_eq] at ht
    unfold hrAmended
    rcases ht with (⟨h1, h2⟩ | ⟨h1, h2⟩) | ⟨h1, h2⟩
    · have hdrop := trimL_drop_all_ws h2
      have hpre : "***".data <+: trimL x := List.isPrefixOf_iff_prefix.mp h1
      have hlen : (trimL x).length = 3 := by
        have hge : 3 ≤ (trimL x).length := by simpa using hpre.length_le
        have := congrArg List.length hdrop
        simp only [List.length_drop, List.length_nil] at this
        omega
      have heq : trimL x = "***".data :=
        (hpre.eq_of_length (by rw [hlen]; rfl)).symm
      rw [heq]
      decide
    · have hdrop := trimL_drop_all_ws h2
      have hpre : "---".data <+: trimL x := List.isPrefixOf_iff_prefix.mp h1
      have hlen : (trimL x).length = 3 := by
        have hge : 3 ≤ (trimL x).length := by simpa using hpre.length_le
        have := congrArg List.length hdrop
        simp only [List.length_drop, List.length_nil] at this
        omega
      have heq : trimL x = "---".data :=
        (hpre.eq_of_length (by rw [hlen]; rfl)).symm
      rw [heq]
      decide
    · have hdrop := trimL_drop_all_ws h2
      have hpre : (trimL x).takeWhile (· == '_') <+: trimL x :=
        List.takeWhile_prefix _
      have hlen : ((trimL x).takeWhile (· == '_')).length = (trimL x).length := by
        have hle := hpre.length_le
        have := congrArg List.length hdrop
        simp only [List.length_drop, List.length_nil] at this
        omega
      have heq : (trimL x).takeWhile (· == '_') = trimL x := hpre.eq_of_length hlen
      have hall : (trimL x).all (· == '_') = true := by
        rw [← heq]
        exact takeWhile_all _ _
      symm
      simp only [Bool.or_eq_true, Bool.and_eq_true, decide_eq_true_eq]
      exact Or.inr ⟨by omega, hall⟩
  | false =>
    cases ha : hrAmended (trimL x) with
    | false => rfl
    | true =>
      exfalso
      unfold hrAmended at ha
      simp only [Bool.or_eq_true, Bool.and_eq_true, decide_eq_true_eq] at ha
      rcases ha with (h1 | h1) | ⟨h1, h2⟩
      · have hcontra : hrTest (trimL x) = true := by rw [eq_of_beq h1]; decide
        rw [ht] at hcontra
        cases hcontra
      · have hcontra : hrTest (trimL x) = true := by rw [eq_of_beq h1]; decide
        rw [ht] at hcontra
        cases hcontra
      · have hself : (trimL x).takeWhile (· == '_') = trimL x := by
          rw [List.takeWhile_eq_self_iff]
          exact fun a ha2 => List.all_eq_true.mp h2 a ha2
        have hcontra : hrTest (trimL x) = true := by
          unfold hrTest
          rw [hself]
          simp only [List.drop_length, List.all_nil, Bool.and_true]
          have h4 : decide ((trimL x).length ≥ 4) = true := by simp [h1]
          rw [h4]
          simp
        rw [ht] at hcontra
        cases hcontra

set_option maxHeartbeats 1600000 in
/-- When the horizontal-rule test fails, no other single-line branch of the
docx parser can produce the rule paragraph. -/
theorem docxSingleLine_ne_hr {l : List Char} (hht : hrTest (trimL l) = false) :
    docxSingleLine l ≠ [.hruleP] := by
  unfold docxSingleLine
  rw [hht]
  simp only [Bool.false_eq_true, if_false]
  intro he
  repeat' split at he
  all_goals
    first
      | exact List.noConfusion he
      | (injection he with h1 h2; exact DocxElement.noConfusion h1)

set_option maxHeartbeats 1600000 in
/-- When the horizontal-rule test fails, no other single-line branch of the
RTF parser can produce the rule fragment. -/
theorem rtfSingleLine_ne_hr {l : List Char} (hht : hrTest (trimL l) = false) :
    rtfSingleLine l ≠
      "\\pard\\sb200\\sa200\\brdrb\\brdrs\\brdrw10\\brdrcf6\\par\n".data := by
  unfold rtfSingleLine
  rw [hht]
  rw [if_neg (show ¬((false : Bool) = true) by decide)]
  intro he
  by_cases g1 : isPrefixL "```" (trimL l) = true
  · rw [if_pos g1] at he
    exact absurd he (by decide)
  · rw [if_neg g1] at he
    by_cases g2 : (containsSub "|" (trimL l) && isPrefixL "|" (trimL l)) = true
    · rw [if_pos g2] at he
      exact absurd he (by decide)
    · rw [if_neg g2] at he
      by_cases g3 : (trimL l).isEmpty = true
      · rw [if_pos g3] at he
        exact absurd he (by decide)
      · rw [if_neg g3] at he
        by_cases g4 : isPrefixL "# " (trimL l) = true
        · rw [if_pos g4] at he
          have h0 := congrArg List.head? he
          simp at h0
        · rw [if_neg g4] at he
          by_cases g5 : isPrefixL "## " (trimL l) = true
          · rw [if_pos g5] at he
            have h0 := congrArg List.head? he
            simp at h0
          · rw [if_neg g5] at he
            by_cases g6 : isPrefixL "### " (trimL l) = true
            · rw [if_pos g6] at he
              have h0 := congrArg List.head? he
              simp at h0
            · rw [if_neg g6] at he
              by_cases g7 : isPrefixL "#### " (trimL l) = true
              · rw [if_pos g7] at he
                have h0 := congrArg List.head? he
                simp at h0
              · rw [if_neg g7] at he
                by_cases g8 : isPrefixL ">" (trimL l) = true
                · rw [if_pos g8] at he
                  have h0 := congrArg List.head? he
                  simp at h0
                · rw [if_neg g8] at he
                  by_cases g9 : bulletTest l = true
                  · rw [if_pos g9] at he
                    have h0 := congrArg List.head? he
                    simp at h0
                  · rw [if_neg g9] at he
                    by_cases g10 : numTest l = true
                    · rw [if_pos g10] at he
                      have h0 := congrArg List.head? he
                      simp at h0
                    · rw [if_neg g10] at he
                      have h0 := congrArg List.head? he
                      simp at h0

/-- C6 amended: for every single-line input, both block parsers classify the
line as a horizontal rule exactly when its trimmed form is `***`, `---`, or
four-plus underscores (the behaviour of the regex
`/^(\*\*\*|---|__{3,})\s*$/`), not the spec's 3-plus-repetitions rule. -/
theorem C6_hrule_iff_exact (s : String) (h : '\n' ∉ s.data) :
    (parseMarkdownToDocx s = [.hruleP] ↔ hrAmended (trimL s.data) = true) ∧
    (parseMarkdownToRTF s =
        "\\pard\\sb200\\sa200\\brdrb\\brdrs\\brdrw10\\brdrcf6\\par\n" ↔
      hrAmended (trimL s.data) = true) := by
  rw [parseMarkdownToDocx_single s h, parseMarkdownToRTF_single s h,
    ← hrTest_amended]
  constructor
  · constructor
    · intro he
      cases hht : hrTest (trimL s.data) with
      | true => rfl
      | false => exact absurd he (docxSingleLine_ne_hr hht)
    · intro hht
      unfold docxSingleLine
      rw [hht]
      simp
  · constructor
    · intro he
      cases hht : hrTest (trimL s.data) with
      | true => rfl
      | false =>
        exfalso
        apply rtfSingleLine_ne_hr hht
        have := congrArg String.data he
        exact this
    · intro hht
      show String.mk (rtfSingleLine s.data) = _
      have : rtfSingleLine s.data =
          "\\pard\\sb200\\sa200\\brdrb\\brdrs\\brdrw10\\brdrcf6\\par\n".data := by
        unfold rtfSingleLine
        rw [hht]
        simp
      rw [this]

/-- C6 amended, witness: the three horizontal-rule spellings and two
rejected near-misses, decided through the single-line theorem. -/
theorem C6_hrule_iff_exact_witness :
    parseMarkdownToDocx "***" = [.hruleP] ∧
    parseMarkdownToDocx "____" = [.hruleP] ∧
    parseMarkdownToDocx "___" ≠ [.hruleP] ∧
    parseMarkdownToDocx "----" ≠ [.hruleP] := by
  refine ⟨?_, ?_, ?_, ?_⟩
  · exact (C6_hrule_iff_exact "***" (by decide)).1.mpr (by decide)
  · exact (C6_hrule_iff_exact "____" (by decide)).1.mpr (by decide)
  · intro he
    have := (C6_hrule_iff_exact "___" (by decide)).1.mp he
    exact absurd this (by decide)
  · intro he
    have := (C6_hrule_iff_exact "----" (by decide)).1.mp he
    exact absurd this (by decide)

/-- A prefix test for a one-character pattern forces the head. -/
theorem exists_cons_of_isPrefixL_single {c : Char} {t : List Char}
    (hp : isPrefixL ⟨[c]⟩ t = true) : ∃ t', t = c :: t' := by
  cases t with
  | nil => cases hp
  | cons a as =>
    have ha : (c == a) = true := by
      simpa [isPrefixL, List.isPrefixOf] using hp
    exact ⟨as, by rw [eq_of_beq ha]⟩

/-- The parsers' horizontal-rule test fails on any line starting with a
character other than `*`, `-`, `_`. -/
theorem hrTest_cons_false {c : Char} (h1 : (c == '*') = false)
    (h2 : (c == '-') = false) (h3 : (c == '_') = false) (t' : List Char) :
    hrTest (c :: t') = false := by
  simp [hrTest, isPrefixL, List.isPrefixOf, List.takeWhile_cons, h1, h2, h3,
    Bool.beq_comm]

/-- C7 amended: a single collected pipe line yields no table at all (fewer
than two collected lines), while two pipe lines with no separator row
anywhere still emit a table whose headers come from the first line — the
second collected line is skipped without any separator validation. -/
theorem C7_single_pipe_line_no_table :
    (∀ s : String, '\n' ∉ s.data → isPrefixL "|" (trimL s.data) = true →
      parseMarkdownToDocx s = []) ∧
    parseMarkdownToDocx "| a |\n| b |" = [.docxTable ["a"] [], .tableSpacer] := by
  constructor
  · intro s hnl hp
    rw [parseMarkdownToDocx_single s hnl]
    obtain ⟨t', ht'⟩ := exists_cons_of_isPrefixL_single (c := '|') hp
    unfold docxSingleLine
    rw [ht']
    rw [hrTest_cons_false (by decide) (by decide) (by decide) t']
    rw [if_neg (show ¬((false : Bool) = true) by decide)]
    rw [show isPrefixL "```" ('|' :: t') = false by
      simp [isPrefixL, List.isPrefixOf]]
    rw [if_neg (show ¬((false : Bool) = true) by decide)]
    rw [show (containsSub "|" ('|' :: t') && isPrefixL "|" ('|' :: t')) = true by
      simp [containsSub, findSub, isPrefixL, List.isPrefixOf]]
    rw [if_pos rfl]
  · decide

/-- C7 amended, witness: the universal no-table conclusion at the concrete
single pipe line `"| x |"`. -/
theorem C7_single_pipe_line_no_table_witness :
    parseMarkdownToDocx "| x |" = [] :=
  C7_single_pipe_line_no_table.1 "| x |" (by decide) (by decide)

/-- `bqLevel` on a line that starts with `'>'` is the leading-run length. -/
theorem bqLevel_cons_gt (t' : List Char) :
    bqLevel ('>' :: t') = (('>' :: t').takeWhile (· == '>')).length := by
  simp [bqLevel, List.takeWhile_cons]

/-- C8 amended: for every single-line input whose trimmed form starts with
`'>'`, the blockquote depth equals the length of the leading `'>'` run, and
the rendered text is what remains after stripping the run and every
immediately following whitespace character (`replace(/^>+\s*/, '')`), not
one space per level: the docx element carries that text through
`cleanMarkdownText`, the RTF fragment renders it verbatim. -/
theorem C8_blockquote_depth_and_strip (s : String) (h1 : '\n' ∉ s.data)
    (h2 : isPrefixL ">" (trimL s.data) = true) :
    parseMarkdownToDocx s =
      [.blockquote ((trimL s.data).takeWhile (· == '>')).length
        ⟨stripMarkdownL (((trimL s.data).dropWhile (· == '>')).dropWhile jsWs)⟩] ∧
    parseMarkdownToRTF s = ⟨"\x7b\\pard\\li".data ++
      (toString ((((trimL s.data).takeWhile (· == '>')).length) * 720)).data ++
      "\\cf2\\i\\sa100 ".data ++
      parseInlineToRTFL (((trimL s.data).dropWhile (· == '>')).dropWhile jsWs) ++
      "\\par\x7d\n".data⟩ := by
  rw [parseMarkdownToDocx_single s h1, parseMarkdownToRTF_single s h1]
  obtain ⟨t', ht'⟩ := exists_cons_of_isPrefixL_single (c := '>') h2
  unfold docxSingleLine rtfSingleLine
  rw [ht']
  rw [hrTest_cons_false (by decide) (by decide) (by decide) t']
  rw [show isPrefixL "```" ('>' :: t') = false by simp [isPrefixL, List.isPrefixOf]]
  rw [show (containsSub "|" ('>' :: t') && isPrefixL "|" ('>' :: t')) = false by
    simp [isPrefixL, List.isPrefixOf]]
  rw [show ('>' :: t').isEmpty = false by rfl]
  rw [show isPrefixL "# " ('>' :: t') = false by simp [isPrefixL, List.isPrefixOf]]
  rw [show isPrefixL "## " ('>' :: t') = false by simp [isPrefixL, List.isPrefixOf]]
  rw [show isPrefixL "### " ('>' :: t') = false by simp [isPrefixL, List.isPrefixOf]]
  rw [show isPrefixL "#### " ('>' :: t') = false by simp [isPrefixL, List.isPrefixOf]]
  rw [show isPrefixL ">" ('>' :: t') = true by simp [isPrefixL, List.isPrefixOf]]
  simp only [Bool.false_eq_true, if_false, if_true, Bool.true_eq_false]
  unfold bqText
  rw [bqLevel_cons_gt]
  constructor
  · rfl
  · rfl

/-- C8 amended, witness: the characterization applied to the concrete line
`">  a"` (two spaces after the marker, all stripped). -/
theorem C8_blockquote_depth_and_strip_witness :
    parseMarkdownToDocx ">  a" =
      [.blockquote ((trimL ">  a".data).takeWhile (· == '>')).length
        ⟨stripMarkdownL (((trimL ">  a".data).dropWhile (· == '>')).dropWhile jsWs)⟩] :=
  (C8_blockquote_depth_and_strip ">  a" (by decide) (by decide)).1

/-- The last `'|'` of a pipe-terminated line sits at the end. -/
theorem lastSub_pipe_concat (l : List Char) :
    lastSub ['|'] (l ++ ['|']) = some l.length := by
  unfold lastSub
  rw [show (l ++ ['|']).reverse = '|' :: l.reverse by simp]
  rw [show (['|'] : List Char).reverse = ['|'] by rfl]
  rw [show findSub ['|'] ('|' :: l.reverse) = some 0 by
    unfold findSub
    simp [List.isPrefixOf]]
  simp

/-- The `/\|.*\|/g` scan of a single line that both starts and ends with a
pipe matches exactly the whole line. -/
theorem pipeRowMatches_wrapped (mid : List Char) (hnl : '\n' ∉ mid) :
    pipeRowMatches ('|' :: mid ++ ['|']) = ['|' :: mid ++ ['|']] := by
  unfold pipeRowMatches
  rw [splitNl_single (by
    intro hmem
    rcases List.mem_cons.mp hmem with h | h
    · cases h
    · rcases List.mem_append.mp h with h2 | h2
      · exact hnl h2
      · simp at h2)]
  simp only [List.filterMap_cons, List.filterMap_nil]
  rw [show List.findIdx? (fun x => x == '|') ('|' :: mid ++ ['|']) = some 0 by
    simp [List.findIdx?_cons]]
  simp only [List.drop_zero]
  rw [show ('|' :: mid ++ ['|']) = ('|' :: mid) ++ ['|'] by simp,
    lastSub_pipe_concat ('|' :: mid)]
  simp only [List.length_cons]
  rw [if_pos (by omega)]
  rw [List.take_of_length_le (by simp)]

/-- C5 amended: a scanned pipe row (one line wrapped in pipes, as matched by
the extractor) contributes nothing to the CSV output exactly when it
contains the substring `'---'` anywhere or yields no non-empty cells; the
spec's cells-only-dashes/colons/whitespace condition is neither necessary
nor sufficient. -/
theorem C5_drop_iff_triple_dash (mid : List Char) (hnl : '\n' ∉ mid) :
    generateCSVL ('|' :: mid ++ ['|']) = [] ↔
      (containsSub "---" ('|' :: mid ++ ['|']) = true ∨
        csvCells ('|' :: mid ++ ['|']) = []) := by
  unfold generateCSVL
  rw [pipeRowMatches_wrapped mid hnl]
  simp only [List.filterMap_cons, List.filterMap_nil]
  unfold csvRow
  cases hdash : containsSub "---" ('|' :: mid ++ ['|']) with
  | true =>
    simp
  | false =>
    simp only [Bool.false_eq_true, if_false]
    cases hcells : (csvCells ('|' :: mid ++ ['|'])).isEmpty with
    | true =>
      simp
      exact List.isEmpty_iff.mp hcells
    | false =>
      have hne : csvCells ('|' :: mid ++ ['|']) ≠ [] := by
        intro he
        rw [he] at hcells
        cases hcells
      simp
      exact hne

/-- C5 amended, witness: the iff applied to the separator-style row
`"| :-: |"` (retained: no `'---'` substring, one non-empty cell). -/
theorem C5_drop_iff_triple_dash_witness :
    generateCSVL ('|' :: " :-: ".data ++ ['|']) = [] ↔
      (containsSub "---" ('|' :: " :-: ".data ++ ['|']) = true ∨
        csvCells ('|' :: " :-: ".data ++ ['|']) = []) :=
  C5_drop_iff_triple_dash " :-: ".data (by decide)

theorem option_orElse_cases {a b : Option Nat} {n : Nat}
    (h : (a <|> b) = some n) : a = some n ∨ b = some n := by
  cases a with
  | none => right; simpa using h
  | some m => left; simpa using h

theorem mbAt_pos {l : List Char} {n : Nat} (h : mbAt l = some n) : 1 ≤ n := by
  unfold mbAt at h
  split at h
  · obtain ⟨j, _, hn⟩ := Option.map_eq_some'.mp h
    omega
  · cases h

theorem miAt_pos {l : List Char} {n : Nat} (h : miAt l = some n) : 1 ≤ n := by
  unfold miAt at h
  split at h
  · obtain ⟨j, _, hn⟩ := Option.map_eq_some'.mp h
    omega
  · cases h

theorem wrapAt_pos {d : String} {ccls : Char → Bool} {l : List Char} {n : Nat}
    (h : wrapAt d ccls l = some n) : 1 ≤ n := by
  unfold wrapAt at h
  split at h
  · simp only [] at h
    split at h
    · cases h
    · split at h
      · rename_i hcont _
        injection h with h'
        simp only [List.isEmpty_iff] at hcont
        have hlen := List.length_pos.mpr hcont
        omega
      · cases h
  · cases h

theorem brAtExact_pos {l : List Char} {n : Nat} (h : brAtExact l = some n) :
    1 ≤ n := by
  unfold brAtExact at h
  split at h
  · simp only [] at h
    split at h
    · injection h with h'
      omega
    · injection h with h'
      omega
    · cases h
  · cases h

/-- Every alternative of the inline alternation consumes at least one
character. -/
theorem tryInlinePat_pos {l : List Char} {n : Nat}
    (h : tryInlinePat l = some n) : 1 ≤ n := by
  unfold tryInlinePat at h
  rcases option_orElse_cases h with h | h
  · exact mbAt_pos h
  rcases option_orElse_cases h with h | h
  · exact miAt_pos h
  rcases option_orElse_cases h with h | h
  · exact wrapAt_pos h
  rcases option_orElse_cases h with h | h
  · exact wrapAt_pos h
  rcases option_orElse_cases h with h | h
  · exact wrapAt_pos h
  rcases option_orElse_cases h with h | h
  · exact wrapAt_pos h
  rcases option_orElse_cases h with h | h
  · exact wrapAt_pos h
  rcases option_orElse_cases h with h | h
  · exact wrapAt_pos h
  rcases option_orElse_cases h with h | h
  · exact wrapAt_pos h
  · exact brAtExact_pos h

/-- The split is a partition: concatenating every fragment (matched or not)
restores the input. -/
theorem inlineSplitF_flatten :
    ∀ fuel (acc l : List Char), l.length < fuel →
      (inlineSplitF fuel acc l).flatten = acc.reverse ++ l := by
  intro fuel
  induction fuel with
  | zero => intro acc l h; omega
  | succ m ih =>
    intro acc l h
    cases l with
    | nil => simp [inlineSplitF]
    | cons c cs =>
      rw [inlineSplitF]
      cases hm : tryInlinePat (c :: cs) with
      | none =>
        simp only
        rw [ih (c :: acc) cs (by simp at h; omega)]
        simp
      | some n2 =>
        have hpos := tryInlinePat_pos hm
        simp only
        rw [List.flatten_cons, List.flatten_cons]
        rw [ih [] ((c :: cs).drop n2) (by simp at h ⊢; omega)]
        simp [List.take_append_drop]

/-- Whole-input form of the partition property. -/
theorem inlineSplit_flatten (l : List Char) : (inlineSplit l).flatten = l := by
  unfold inlineSplit
  rw [inlineSplitF_flatten (l.length + 1) [] l (by omega)]
  rfl

theorem classifyRun_plain {p : List Char} (hdw : delimWrapped p = false) :
    classifyRun p = .text ⟨p⟩ := by
  unfold delimWrapped at hdw
  simp only [Bool.or_eq_false_iff] at hdw
  obtain ⟨⟨⟨⟨⟨⟨⟨⟨⟨h1, h2⟩, h3⟩, h4⟩, h5⟩, h6⟩, h7⟩, h8⟩, h9⟩, h10⟩ := hdw
  simp [classifyRun, h1, h2, h3, h4, h5, h6, h7, h8, h9, h10]

theorem classifyRun_text_inv {p : List Char} {t : String}
    (hc : classifyRun p = .text t) : t = ⟨p⟩ := by
  unfold classifyRun at hc
  repeat' split at hc
  all_goals first
    | exact Run.noConfusion hc
    | (injection hc with h; exact h.symm)

theorem flatten_nil_of_filter_nil {parts : List (List Char)}
    (h : parts.filter (fun p => !p.isEmpty) = []) : parts.flatten = [] := by
  induction parts with
  | nil => rfl
  | cons a l ih =>
    rw [List.filter_cons] at h
    cases ha : a.isEmpty with
    | true =>
      have ha' : a = [] := List.isEmpty_iff.mp ha
      rw [if_neg (by rw [ha]; decide)] at h
      rw [List.flatten_cons, ha', ih h]
      rfl
    | false =>
      rw [if_pos (by rw [ha]; rfl)] at h
      cases h

/-- C10: the inline formatter never returns an empty run list; when the
split leaves the input as one whole fragment that is not delimiter-wrapped,
the result is the single plain-text run carrying the input; and for
non-empty input every emitted plain-text run is non-empty. -/
theorem C10_inline_runs_nonempty (s : String) :
    parseInlineFormatting s ≠ [] ∧
    (inlineSplit s.data = [s.data] → delimWrapped s.data = false →
      parseInlineFormatting s = [.text s]) ∧
    (s ≠ "" → ∀ t : String, Run.text t ∈ parseInlineFormatting s → t ≠ "") := by
  refine ⟨?_, ?_, ?_⟩
  · simp only [parseInlineFormatting, parseInlineFormattingL]
    split
    · simp
    · rename_i hr
      simpa [List.isEmpty_iff] using hr
  · intro hsplit hdw
    simp only [parseInlineFormatting, parseInlineFormattingL]
    rw [hsplit]
    cases hnil : s.data.isEmpty with
    | true =>
      have hfe : List.filter (fun p => !p.isEmpty) [s.data] = [] := by
        simp [List.filter_cons, hnil]
      rw [hfe]
      rfl
    | false =>
      have hfe : List.filter (fun p => !p.isEmpty) [s.data] = [s.data] := by
        simp [List.filter_cons, hnil]
      rw [hfe]
      have hme : List.map classifyRun [s.data] = [Run.text ⟨s.data⟩] := by
        rw [List.map_cons, List.map_nil, classifyRun_plain hdw]
      rw [hme]
      rfl
  · intro hne t hmem
    simp only [parseInlineFormatting, parseInlineFormattingL] at hmem
    split at hmem
    · rename_i hemp
      exfalso
      apply hne
      have hfil : (inlineSplit s.data).filter (fun p => !p.isEmpty) = [] := by
        have := List.isEmpty_iff.mp hemp
        exact List.map_eq_nil_iff.mp this
      have hfl : (inlineSplit s.data).flatten = [] :=
        flatten_nil_of_filter_nil hfil
      rw [inlineSplit_flatten] at hfl
      cases s
      simp at hfl
      simp [hfl]
    · obtain ⟨p, hpmem, hcl⟩ := List.mem_map.mp hmem
      have hp := (List.mem_filter.mp hpmem).2
      have ht := classifyRun_text_inv hcl
      intro hteq
      rw [hteq] at ht
      have hpe : p = [] := by
        have := congrArg String.data ht
        simpa using this
      rw [hpe] at hp
      simp at hp

/-- Witness: for the input "a*b" no alternation branch matches, the split
returns the whole fragment, it is not delimiter-wrapped, and the formatter
yields the single plain run with every text run non-empty. -/
theorem C10_inline_runs_nonempty_witness :
    inlineSplit "a*b".data = ["a*b".data] ∧ delimWrapped "a*b".data = false ∧
    parseInlineFormatting "a*b" = [.text "a*b"] ∧
    (∀ t : String, Run.text t ∈ parseInlineFormatting "a*b" → t ≠ "") :=
  ⟨by decide, by decide,
    (C10_inline_runs_nonempty "a*b").2.1 (by decide) (by decide),
    (C10_inline_runs_nonempty "a*b").2.2 (by decide)⟩
